import Mathlib

/-! # chatglm_cn.cpp : command line driver of ChatGLM

A shallow embedding of `src/chatglm_cn.cpp`: argument parsing (`parse_args`), the
interactive loop and the single request of `chat`, and `main`.

Conventions of the embedding.

* C++ `int` is `Int`; `std::stoi` checks the 32-bit range explicitly.
* C++ `float` is an abstract type `F` with the operations the driver uses (`FloatOps`).
* A C++ exception is a value of `Exn`; a function that may throw returns `Except Exn _`.
* `chatglm::Pipeline` and `chatglm::GenerationConfig` are declared in `chatglm.h`, which
  is not part of the sources at hand: the pipeline is a parameter (`Env`), the
  configuration a record with a parameter for the checks of its constructor.
* Console output is modelled only where `parse_args` exits.
-/

namespace ChatGLM

/-! ## Exceptions and exit statuses -/

/-- A thrown `std::exception`, with the text of `what()`. -/
inductive Exn where
  | invalid_argument (what : String)
  | out_of_range (what : String)
  | other (what : String)
deriving DecidableEq, Repr

/-- Equality of results of functions that may throw is decidable. -/
instance instDecidableEqExcept {ε α : Type} [DecidableEq ε] [DecidableEq α] :
    DecidableEq (Except ε α)
  | .ok a, .ok b => if h : a = b then isTrue (by rw [h]) else isFalse (by simpa using h)
  | .error a, .error b => if h : a = b then isTrue (by rw [h]) else isFalse (by simpa using h)
  | .ok _, .error _ => isFalse (by simp)
  | .error _, .ok _ => isFalse (by simp)

/-- The macro `EXIT_SUCCESS`. -/
def EXIT_SUCCESS : Nat := 0

/-- The macro `EXIT_FAILURE`. -/
def EXIT_FAILURE : Nat := 1

/-! ## Numbers -/

/-- The operations on `float` used by the driver. `dec m e` is the literal `m / 10^e`,
`lt` is `<`, and `stof` is `std::stof`. -/
structure FloatOps (F : Type) where
  dec : Nat → Nat → F
  lt : F → F → Bool
  stof : String → Except Exn F

/-- The C function `isspace` in the "C" locale. -/
def isspace (c : Char) : Bool :=
  c = ' ' || c = '\t' || c = '\n' || c = '\x0b' || c = '\x0c' || c = '\r'

/-- Value of a run of decimal digits. -/
def digitsValue (ds : List Char) : Nat :=
  ds.foldl (fun acc d => 10 * acc + (d.toNat - '0'.toNat)) 0

/-- The function `std::stoi(str)` (base 10): leading white space is skipped, an optional
sign is read, then the longest run of digits; text after the digits is ignored. No digit
throws `std::invalid_argument`, a value outside `int` throws `std::out_of_range`. -/
def stoi (str : String) : Except Exn Int :=
  let cs := str.toList.dropWhile isspace
  let negative := cs.head? = some '-'
  let body := if cs.head? = some '-' ∨ cs.head? = some '+' then cs.tail else cs
  let digits := body.takeWhile Char.isDigit
  if digits = [] then
    .error (.invalid_argument "stoi")
  else
    let value : Int := if negative then -(digitsValue digits : Int) else (digitsValue digits : Int)
    if value < -2147483648 ∨ 2147483647 < value then
      .error (.out_of_range "stoi")
    else
      .ok value

/-! ## Arguments -/

/-- The enum `InferenceMode`. -/
inductive InferenceMode where
  | INFERENCE_MODE_CHAT
  | INFERENCE_MODE_GENERATE
deriving DecidableEq, Repr

open InferenceMode

/-- The function `to_inference_mode`: `m.at(s)` throws `std::out_of_range` for a key that
is not in the map (the text of `what()` is the library's own). -/
def to_inference_mode (s : String) : Except Exn InferenceMode :=
  if s = "chat" then .ok INFERENCE_MODE_CHAT
  else if s = "generate" then .ok INFERENCE_MODE_GENERATE
  else .error (.out_of_range "unordered_map::at")

/-- The struct `Args`. -/
structure Args (F : Type) where
  model_path : String
  mode : InferenceMode
  prompt : String
  file : String
  max_length : Int
  max_context_length : Int
  interactive : Bool
  top_k : Int
  top_p : F
  temp : F
  repeat_penalty : F
  num_threads : Int
  verbose : Bool
deriving DecidableEq, Repr

/-- The default member initialisers of `Args`. -/
def Args.default {F : Type} (fl : FloatOps F) : Args F where
  model_path := "chatglm-ggml.bin"
  mode := INFERENCE_MODE_CHAT
  prompt := "你好"
  file := ""
  max_length := 2048
  max_context_length := 512
  interactive := false
  top_k := 0
  top_p := fl.dec 7 1
  temp := fl.dec 95 2
  repeat_penalty := fl.dec 10 1
  num_threads := 0
  verbose := false

/-- What `parse_args` writes before it exits. -/
inductive Printed where
  | usage (prog : String)
  | unknown_argument (arg : String)
deriving DecidableEq, Repr

/-- How a call of `parse_args` ends: it returns, it calls `exit`, it throws, or it reads
`argv[argv.size()]`, past the end of the vector, which the language leaves undefined. -/
inductive ParseResult (α : Type) where
  | ok (args : α)
  | exit (printed : List Printed) (status : Nat)
  | throw (e : Exn)
  | out_of_bounds
deriving DecidableEq, Repr

/-- The body of the `for` loop of `parse_args`, from index `i` on: `prog` is `argv[0]`, the
list holds `argv[i], argv[i+1], ...`, and `args` is the value built so far. `argv[++i]`
takes the next element; when there is none the read is out of bounds. -/
def parse_loop {F : Type} (fl : FloatOps F) (prog : String) :
    List String → Args F → ParseResult (Args F)
  | [], args => .ok args
  | arg :: rest, args =>
    if arg = "-h" ∨ arg = "--help" then
      .exit [.usage prog] EXIT_SUCCESS
    else if arg = "-m" ∨ arg = "--model" then
      match rest with
      | [] => .out_of_bounds
      | v :: rest => parse_loop fl prog rest { args with model_path := v }
    else if arg = "--mode" then
      match rest with
      | [] => .out_of_bounds
      | v :: rest =>
        match to_inference_mode v with
        | .error e => .throw e
        | .ok m => parse_loop fl prog rest { args with mode := m }
    else if arg = "-p" ∨ arg = "--prompt" then
      match rest with
      | [] => .out_of_bounds
      | v :: rest => parse_loop fl prog rest { args with prompt := v }
    else if arg = "-f" ∨ arg = "--file" then
      match rest with
      | [] => .out_of_bounds
      | v :: rest => parse_loop fl prog rest { args with file := v }
    else if arg = "-i" ∨ arg = "--interactive" then
      parse_loop fl prog rest { args with interactive := true }
    else if arg = "-l" ∨ arg = "--max_length" then
      match rest with
      | [] => .out_of_bounds
      | v :: rest =>
        match stoi v with
        | .error e => .throw e
        | .ok n => parse_loop fl prog rest { args with max_length := n }
    else if arg = "-c" ∨ arg = "--max_context_length" then
      match rest with
      | [] => .out_of_bounds
      | v :: rest =>
        match stoi v with
        | .error e => .throw e
        | .ok n => parse_loop fl prog rest { args with max_context_length := n }
    else if arg = "--top_k" then
      match rest with
      | [] => .out_of_bounds
      | v :: rest =>
        match stoi v with
        | .error e => .throw e
        | .ok n => parse_loop fl prog rest { args with top_k := n }
    else if arg = "--top_p" then
      match rest with
      | [] => .out_of_bounds
      | v :: rest =>
        match fl.stof v with
        | .error e => .throw e
        | .ok x => parse_loop fl prog rest { args with top_p := x }
    else if arg = "--temp" then
      match rest with
      | [] => .out_of_bounds
      | v :: rest =>
        match fl.stof v with
        | .error e => .throw e
        | .ok x => parse_loop fl prog rest { args with temp := x }
    else if arg = "--repeat_penalty" then
      match rest with
      | [] => .out_of_bounds
      | v :: rest =>
        match fl.stof v with
        | .error e => .throw e
        | .ok x => parse_loop fl prog rest { args with repeat_penalty := x }
    else if arg = "-t" ∨ arg = "--threads" then
      match rest with
      | [] => .out_of_bounds
      | v :: rest =>
        match stoi v with
        | .error e => .throw e
        | .ok n => parse_loop fl prog rest { args with num_threads := n }
    else if arg = "-v" ∨ arg = "--verbose" then
      parse_loop fl prog rest { args with verbose := true }
    else
      .exit [.unknown_argument arg, .usage prog] EXIT_FAILURE
termination_by structural l => l

/-- The function `parse_args(const std::vector<std::string> &argv)`: the loop starts at
index 1 with the default `Args`. -/
def parse_args {F : Type} (fl : FloatOps F) (argv : List String) : ParseResult (Args F) :=
  match argv with
  | [] => .ok (Args.default fl)
  | prog :: rest => parse_loop fl prog rest (Args.default fl)

/-! ## The generation configuration and the pipeline (declared in `chatglm.h`) -/

/-- Modelled from the spec: the struct `chatglm::GenerationConfig`, declared in
`chatglm.h`; the fields are those of the data model of the spec, in the order of the
arguments of the constructor call in `chat`. -/
structure GenerationConfig (F : Type) where
  max_total_length : Int
  max_context_length : Int
  do_sample : Bool
  top_k : Int
  top_p : F
  temperature : F
  repeat_penalty : F
  thread_hint : Int
deriving DecidableEq, Repr

/-- Modelled from the spec: the constructor of `chatglm::GenerationConfig` (in
`chatglm.h`) stores its eight arguments; `check` stands for the checks it makes and gives
the exception it throws, if any. -/
def GenerationConfig.ctor {F : Type} (check : GenerationConfig F → Option Exn)
    (max_length max_context_length : Int) (do_sample : Bool) (top_k : Int)
    (top_p temperature repetition_penalty : F) (num_threads : Int) :
    Except Exn (GenerationConfig F) :=
  let c : GenerationConfig F :=
    { max_total_length := max_length
      max_context_length := max_context_length
      do_sample := do_sample
      top_k := top_k
      top_p := top_p
      temperature := temperature
      repeat_penalty := repetition_penalty
      thread_hint := num_threads }
  match check c with
  | some e => .error e
  | none => .ok c

/-- Modelled from the spec: the checks of the constructor of `GenerationConfig`, which is
in `chatglm.h`: "Construction fails with InvalidConfig when max_context_length exceeds
max_total_length, or when top_p is outside [0,1], or temperature/top_k are negative." -/
def invalid_config {F : Type} (fl : FloatOps F) (c : GenerationConfig F) : Option Exn :=
  if c.max_total_length < c.max_context_length
      ∨ fl.lt c.top_p (fl.dec 0 0) = true ∨ fl.lt (fl.dec 1 0) c.top_p = true
      ∨ fl.lt c.temperature (fl.dec 0 0) = true ∨ c.top_k < 0 then
    some (.other "InvalidConfig")
  else
    none

/-- A call of the engine made by the driver, with what it was given and, for `chat` and
`generate`, what came back. -/
inductive Call (F : Type) where
  | load (model_path : String)
  | chat (history : List String) (gen_config : GenerationConfig F) (result : Except Exn String)
  | generate (prompt : String) (gen_config : GenerationConfig F) (result : Except Exn String)
deriving DecidableEq, Repr

/-- The configuration an engine call was given, if it takes one. -/
def Call.config {F : Type} : Call F → Option (GenerationConfig F)
  | .load _ => none
  | .chat _ c _ => some c
  | .generate _ c _ => some c

/-- Everything outside `chatglm_cn.cpp` the driver depends on. `σ` is the state of a
`chatglm::Pipeline`: `load` is its constructor, `chat` and `generate` its methods (each
gives its result and the next state of the pipeline, so that an engine may answer the same
history differently at different times). `config_check` stands for the checks of the
`GenerationConfig` constructor, `open_file path` is the text delivered by
`std::ifstream(path)` or `none` when the stream cannot be opened, `stdin` holds the lines
that `std::getline(std::cin, _)` will deliver, and `hardware_concurrency` is
`std::thread::hardware_concurrency()`. -/
structure Env (σ F : Type) where
  floats : FloatOps F
  load : String → Except Exn σ
  chat : σ → List String → GenerationConfig F → Except Exn String × σ
  generate : σ → String → GenerationConfig F → Except Exn String × σ
  config_check : GenerationConfig F → Option Exn
  open_file : String → Option String
  stdin : List String
  hardware_concurrency : Int

/-! ## Console input and the prompt file -/

/-- The function `gbk_to_utf8` where `_WIN32` is not defined: the line is left as it is
and the result is `false`. -/
def gbk_to_utf8 (line : String) : Bool × String := (false, line)

/-- The function `std::getline(infile, line)` on the characters left in the stream:
`none` when nothing can be extracted (end of file, the stream goes bad), otherwise the
characters before the first line feed and the stream after that line feed, which is
extracted and not stored. -/
def getline (stream : List Char) : Option (List Char × List Char) :=
  if stream = [] then none
  else
    let line := stream.takeWhile (fun c => c ≠ '\n')
    some (line, stream.drop (line.length + 1))

set_option linter.unusedVariables false in
/-- The loop `while (getline(infile, line)) content += line;` of `chat`. -/
def read_content (infile : List Char) (content : List Char) : List Char :=
  match h : getline infile with
  | none => content
  | some (line, rest) => read_content rest (content ++ line)
termination_by infile.length
decreasing_by
  unfold getline at h
  split at h
  · simp at h
  · simp only [Option.some.injEq, Prod.mk.injEq] at h
    rw [← h.2, List.length_drop]
    have : infile.length ≠ 0 := by
      intro h0
      exact absurd (List.length_eq_zero.mp h0) (by assumption)
    omega

/-! ## The function `chat` -/

/-- The variables of the interactive loop: `history`, the pipeline, and the calls of the
engine made so far (oldest first). -/
structure LoopState (σ F : Type) where
  history : List String
  pipeline : σ
  calls : List (Call F)
deriving DecidableEq, Repr

/-- How the interactive loop ends: by `break`, or by an exception of `pipeline.chat` that
leaves the loop; `unread` is what is left of the standard input. -/
inductive LoopEnd (σ F : Type) where
  | finished (st : LoopState σ F) (unread : List String)
  | threw (e : Exn) (st : LoopState σ F) (unread : List String)
deriving DecidableEq, Repr

/-- The loop `while (1)` of `chat`, on the lines still to come from the standard input.
`get_utf8_line` fails at the end of the input, and the loop breaks; otherwise it delivers
the next line, passed through `gbk_to_utf8`. The prompt is appended to the history before
`pipeline.chat` is called, the output after it has returned. -/
def interactive_loop {σ F : Type} (env : Env σ F) (gen_config : GenerationConfig F) :
    List String → LoopState σ F → LoopEnd σ F
  | [], st => .finished st []
  | line :: stdin, st =>
    let prompt := (gbk_to_utf8 line).2
    if prompt = "stop" then
      .finished st stdin
    else if prompt = "" then
      interactive_loop env gen_config stdin st
    else if prompt = "clear" then
      interactive_loop env gen_config stdin { st with history := [] }
    else
      let history := st.history ++ [prompt]
      match env.chat st.pipeline history gen_config with
      | (.error e, pipeline) =>
        .threw e { history := history, pipeline := pipeline,
                   calls := st.calls ++ [.chat history gen_config (.error e)] } stdin
      | (.ok output, pipeline) =>
        interactive_loop env gen_config stdin
          { history := history ++ [output], pipeline := pipeline,
            calls := st.calls ++ [.chat history gen_config (.ok output)] }

/-- How a function of the driver or the process ends. -/
inductive Ending where
  | returned
  | exited (status : Nat)
  | threw (e : Exn)
  | undefined
deriving DecidableEq, Repr

/-- What is observed of a run: the calls of the engine in order, the lines of the standard
input left unread, and how the run ended. -/
structure Run (F : Type) where
  calls : List (Call F)
  unread : List String
  ending : Ending
deriving DecidableEq, Repr

/-- The function `chat(Args &args)`: the pipeline is built from `args.model_path`, then
the generation configuration, with `args.temp > 0` as `do_sample`; interactive mode falls
back to a single request outside chat mode; then comes either the interactive loop or one
request, for which chat mode first appends the content of `args.file` to the prompt and
calls `exit(EXIT_FAILURE)` when the file cannot be opened. The timers, the streamers and
the verbose output are left out: they do not change which calls are made. -/
def chat {σ F : Type} (env : Env σ F) (args : Args F) : Run F :=
  match env.load args.model_path with
  | .error e => { calls := [.load args.model_path], unread := env.stdin, ending := .threw e }
  | .ok pipeline =>
    match GenerationConfig.ctor env.config_check args.max_length args.max_context_length
        (env.floats.lt (env.floats.dec 0 0) args.temp) args.top_k args.top_p args.temp
        args.repeat_penalty args.num_threads with
    | .error e => { calls := [.load args.model_path], unread := env.stdin, ending := .threw e }
    | .ok gen_config =>
      let interactive :=
        if args.mode ≠ INFERENCE_MODE_CHAT ∧ args.interactive = true then false
        else args.interactive
      if interactive = true then
        match interactive_loop env gen_config env.stdin
            { history := [], pipeline := pipeline, calls := [.load args.model_path] } with
        | .finished st unread => { calls := st.calls, unread := unread, ending := .returned }
        | .threw e st unread => { calls := st.calls, unread := unread, ending := .threw e }
      else if args.mode = INFERENCE_MODE_CHAT then
        let loaded : Option String :=
          if args.file ≠ "" then
            match env.open_file args.file with
            | none => none
            | some infile => some (args.prompt ++ String.mk (read_content infile.toList []))
          else
            some args.prompt
        match loaded with
        | none =>
          { calls := [.load args.model_path], unread := env.stdin, ending := .exited EXIT_FAILURE }
        | some prompt =>
          match env.chat pipeline [prompt] gen_config with
          | (.error e, _) =>
            { calls := [.load args.model_path, .chat [prompt] gen_config (.error e)],
              unread := env.stdin, ending := .threw e }
          | (.ok output, _) =>
            { calls := [.load args.model_path, .chat [prompt] gen_config (.ok output)],
              unread := env.stdin, ending := .returned }
      else
        match env.generate pipeline args.prompt gen_config with
        | (.error e, _) =>
          { calls := [.load args.model_path, .generate args.prompt gen_config (.error e)],
            unread := env.stdin, ending := .threw e }
        | (.ok output, _) =>
          { calls := [.load args.model_path, .generate args.prompt gen_config (.ok output)],
            unread := env.stdin, ending := .returned }

/-- The end of `main` after `chat`: `catch (std::exception &e)` turns an exception into
`exit(EXIT_FAILURE)`, and a normal end of `chat` reaches `return 0`. -/
def main_end {F : Type} (run : Run F) : Run F :=
  match run.ending with
  | .returned => { run with ending := .exited 0 }
  | .threw _ => { run with ending := .exited EXIT_FAILURE }
  | .exited status => { run with ending := .exited status }
  | .undefined => run

/-- The assignments of `main` under `if (argc == 1)`. -/
def main_args {σ F : Type} (env : Env σ F) (argv : List String) (parsed : Args F) : Args F :=
  if argv.length = 1 then
    { parsed with interactive := true, model_path := "chatglm-ggml.bin",
                  num_threads := env.hardware_concurrency }
  else parsed

/-- The function `main`, on `argv` (`argc` is its length): an exception of `parse_args` or
`chat` is caught and the process exits with `EXIT_FAILURE`; otherwise `main` returns 0. -/
def main {σ F : Type} (env : Env σ F) (argv : List String) : Run F :=
  match parse_args env.floats argv with
  | .exit _ status => { calls := [], unread := env.stdin, ending := .exited status }
  | .throw _ => { calls := [], unread := env.stdin, ending := .exited EXIT_FAILURE }
  | .out_of_bounds => { calls := [], unread := env.stdin, ending := .undefined }
  | .ok parsed => main_end (chat env (main_args env argv parsed))

/-! ## The loop seen from its head -/

/-- The state of the interactive loop at the moment it is about to read an input, after
the lines `pre` have been read from the state `st`; `none` when the loop has ended on the
way, by "stop" or by an exception of the engine. -/
def loop_head {σ F : Type} (env : Env σ F) (gen_config : GenerationConfig F) :
    List String → LoopState σ F → Option (LoopState σ F)
  | [], st => some st
  | line :: pre, st =>
    let prompt := (gbk_to_utf8 line).2
    if prompt = "stop" then
      none
    else if prompt = "" then
      loop_head env gen_config pre st
    else if prompt = "clear" then
      loop_head env gen_config pre { st with history := [] }
    else
      let history := st.history ++ [prompt]
      match env.chat st.pipeline history gen_config with
      | (.error _, _) => none
      | (.ok output, pipeline) =>
        loop_head env gen_config pre
          { history := history ++ [output], pipeline := pipeline,
            calls := st.calls ++ [.chat history gen_config (.ok output)] }

/-- The lines of `pre` read since the start or since the last "clear" that are neither
empty nor a command. -/
def turns (pre : List String) : List String :=
  ((pre.reverse.takeWhile (fun l => l ≠ "clear")).reverse).filter
    (fun l => l ≠ "" ∧ l ≠ "stop" ∧ l ≠ "clear")

/-- The history of `st` is made of the lines `ts` at the even positions, each followed by
the reply the engine gave to the history up to that line: the last `ts.length` calls of
the engine are those replies, in order. -/
def Alternates {σ F : Type} (gen_config : GenerationConfig F) (st : LoopState σ F)
    (ts : List String) : Prop :=
  st.history.length = 2 * ts.length
  ∧ (∀ k, k < ts.length → st.history[2 * k]? = ts[k]?)
  ∧ ∃ earlier recent : List (Call F),
      st.calls = earlier ++ recent ∧ recent.length = ts.length
      ∧ ∀ k, k < ts.length → ∃ reply,
          st.history[2 * k + 1]? = some reply
          ∧ recent[k]? = some (.chat (st.history.take (2 * k + 1)) gen_config (.ok reply))

/-! ## The command line as a list of flag groups -/

/-- The flags of the command line (section 6 of the spec), one per pair of short and long
name. -/
inductive Flag where
  | help
  | model
  | mode
  | prompt
  | file
  | interactive
  | max_length
  | max_context_length
  | top_k
  | top_p
  | temp
  | repeat_penalty
  | threads
  | verbose
deriving DecidableEq, Repr

/-- The flag that a token names, if any: the table of section 6 of the spec. -/
def flag_of (arg : String) : Option Flag :=
  if arg = "-h" ∨ arg = "--help" then some .help
  else if arg = "-m" ∨ arg = "--model" then some .model
  else if arg = "--mode" then some .mode
  else if arg = "-p" ∨ arg = "--prompt" then some .prompt
  else if arg = "-f" ∨ arg = "--file" then some .file
  else if arg = "-i" ∨ arg = "--interactive" then some .interactive
  else if arg = "-l" ∨ arg = "--max_length" then some .max_length
  else if arg = "-c" ∨ arg = "--max_context_length" then some .max_context_length
  else if arg = "--top_k" then some .top_k
  else if arg = "--top_p" then some .top_p
  else if arg = "--temp" then some .temp
  else if arg = "--repeat_penalty" then some .repeat_penalty
  else if arg = "-t" ∨ arg = "--threads" then some .threads
  else if arg = "-v" ∨ arg = "--verbose" then some .verbose
  else none

/-- The flags followed by a value token; `-h`, `-i` and `-v` stand alone. -/
def Flag.takes_value : Flag → Bool
  | .help => false
  | .interactive => false
  | .verbose => false
  | _ => true

/-- The flags that take a value, under their short and long names (section 6 of the
spec). -/
def value_flags : List String :=
  ["-m", "--model", "--mode", "-p", "--prompt", "-f", "--file", "-l", "--max_length",
   "-c", "--max_context_length", "--top_k", "--top_p", "--temp", "--repeat_penalty",
   "-t", "--threads"]

/-- A flag token with the value token that follows it, if it has one. -/
structure Group where
  name : String
  value : Option String
deriving DecidableEq, Repr

/-- The tokens of a group. -/
def Group.tokens (g : Group) : List String :=
  g.name :: g.value.toList

/-- A complete group: a known flag, followed by a value exactly when it takes one. -/
def Group.complete (g : Group) : Bool :=
  match flag_of g.name with
  | some f => f.takes_value == g.value.isSome
  | none => false

/-- The tokens of a list of groups, in order. -/
def tokens_of : List Group → List String
  | [] => []
  | g :: gs => g.tokens ++ tokens_of gs

/-- The groups of a list of tokens, read from the left: a token is in flag position when it
starts a group, and a flag that takes a value takes the next token, whatever it is. -/
def groups_of : List String → List Group
  | [] => []
  | [arg] => [{ name := arg, value := none }]
  | arg :: v :: rest =>
    if (flag_of arg).any Flag.takes_value then
      { name := arg, value := some v } :: groups_of rest
    else
      { name := arg, value := none } :: groups_of (v :: rest)

/-- The last group of `gs` whose flag is `f`, under either of its names. -/
def last_occurrence (gs : List Group) (f : Flag) : Option Group :=
  (gs.filter (fun g => flag_of g.name = some f)).getLast?

/-- A field holds what the last occurrence of its flag gives: the default `dflt` when the
flag `f` does not occur in `gs`, otherwise the conversion `conv` of the value of its last
occurrence. -/
def FieldIs {α : Type} (gs : List Group) (f : Flag) (conv : String → Except Exn α)
    (dflt actual : α) : Prop :=
  match last_occurrence gs f with
  | none => actual = dflt
  | some g => conv (g.value.getD "") = .ok actual

/-- The group is `-h` or `--help`. -/
def Group.is_help (g : Group) : Bool :=
  flag_of g.name = some Flag.help

/-- The exception of a conversion, if it throws. -/
def thrown {α : Type} : Except Exn α → Option Exn
  | .error e => some e
  | .ok _ => none

/-- The exception thrown by the conversion of the value of the group (`to_inference_mode`,
`std::stoi` or `std::stof`, by its flag), if it throws. -/
def Group.conversion_error {F : Type} (fl : FloatOps F) (g : Group) : Option Exn :=
  match flag_of g.name with
  | some .mode => thrown (to_inference_mode (g.value.getD ""))
  | some .max_length => thrown (stoi (g.value.getD ""))
  | some .max_context_length => thrown (stoi (g.value.getD ""))
  | some .top_k => thrown (stoi (g.value.getD ""))
  | some .threads => thrown (stoi (g.value.getD ""))
  | some .top_p => thrown (fl.stof (g.value.getD ""))
  | some .temp => thrown (fl.stof (g.value.getD ""))
  | some .repeat_penalty => thrown (fl.stof (g.value.getD ""))
  | _ => none

/-- The group ends the parse: it is `-h`/`--help`, or the conversion of its value throws. -/
def Group.ends_parse {F : Type} (fl : FloatOps F) (g : Group) : Bool :=
  g.is_help || (g.conversion_error fl).isSome

/-- An assignment to one field of `Args`, as made by one branch of `parse_args`. -/
inductive Setting (F : Type) where
  | model_path (v : String)
  | mode (m : InferenceMode)
  | prompt (v : String)
  | file (v : String)
  | interactive
  | max_length (n : Int)
  | max_context_length (n : Int)
  | top_k (n : Int)
  | top_p (x : F)
  | temp (x : F)
  | repeat_penalty (x : F)
  | num_threads (n : Int)
  | verbose

/-- The assignment carried out. -/
def Setting.apply {F : Type} : Setting F → Args F → Args F
  | .model_path v, args => { args with model_path := v }
  | .mode m, args => { args with mode := m }
  | .prompt v, args => { args with prompt := v }
  | .file v, args => { args with file := v }
  | .interactive, args => { args with interactive := true }
  | .max_length n, args => { args with max_length := n }
  | .max_context_length n, args => { args with max_context_length := n }
  | .top_k n, args => { args with top_k := n }
  | .top_p x, args => { args with top_p := x }
  | .temp x, args => { args with temp := x }
  | .repeat_penalty x, args => { args with repeat_penalty := x }
  | .num_threads n, args => { args with num_threads := n }
  | .verbose, args => { args with verbose := true }

/-- The flag whose branch makes the assignment. -/
def Setting.flag {F : Type} : Setting F → Flag
  | .model_path _ => .model
  | .mode _ => .mode
  | .prompt _ => .prompt
  | .file _ => .file
  | .interactive => .interactive
  | .max_length _ => .max_length
  | .max_context_length _ => .max_context_length
  | .top_k _ => .top_k
  | .top_p _ => .top_p
  | .temp _ => .temp
  | .repeat_penalty _ => .repeat_penalty
  | .num_threads _ => .threads
  | .verbose => .verbose

/-- What one branch of `parse_args` does with the value `v`: it exits with the usage text
(`--help`), it throws from a conversion, or it assigns a field. -/
inductive Effect (F : Type) where
  | exit_help
  | fail (e : Exn)
  | set (s : Setting F)

/-- The branches of `parse_args` as a table: the effect of the flag `f` with the value
`v`. -/
def effect {F : Type} (fl : FloatOps F) : Flag → String → Effect F
  | .help, _ => .exit_help
  | .model, v => .set (.model_path v)
  | .mode, v =>
    match to_inference_mode v with
    | .error e => .fail e
    | .ok m => .set (.mode m)
  | .prompt, v => .set (.prompt v)
  | .file, v => .set (.file v)
  | .interactive, _ => .set .interactive
  | .max_length, v =>
    match stoi v with
    | .error e => .fail e
    | .ok n => .set (.max_length n)
  | .max_context_length, v =>
    match stoi v with
    | .error e => .fail e
    | .ok n => .set (.max_context_length n)
  | .top_k, v =>
    match stoi v with
    | .error e => .fail e
    | .ok n => .set (.top_k n)
  | .top_p, v =>
    match fl.stof v with
    | .error e => .fail e
    | .ok x => .set (.top_p x)
  | .temp, v =>
    match fl.stof v with
    | .error e => .fail e
    | .ok x => .set (.temp x)
  | .repeat_penalty, v =>
    match fl.stof v with
    | .error e => .fail e
    | .ok x => .set (.repeat_penalty x)
  | .threads, v =>
    match stoi v with
    | .error e => .fail e
    | .ok n => .set (.num_threads n)
  | .verbose, _ => .set .verbose

/-- The continuation of `parse_args` after one branch, by its effect. -/
def after_effect {F : Type} (prog : String) (k : Args F → ParseResult (Args F))
    (args : Args F) : Effect F → ParseResult (Args F)
  | .exit_help => .exit [.usage prog] EXIT_SUCCESS
  | .fail e => .throw e
  | .set s => k (s.apply args)

/-! ## Concrete environments, for evaluation -/

/-- A stand-in for `float`: a number is held in thousandths, and `stof` reads an integer. -/
def milli : FloatOps Int where
  dec := fun m e => ((m * 1000 / 10 ^ e : Nat) : Int)
  lt := fun a b => decide (a < b)
  stof := fun s => (stoi s).map (fun n => n * 1000)

/-- An engine that answers every history with a fixed text marked by the last entry, and
counts its calls; the only file is `prompt.txt`, of two lines. -/
def echo_env : Env Nat Int where
  floats := milli
  load := fun _ => .ok 0
  chat := fun n history _ => (.ok ("re: " ++ history.getLast?.getD ""), n + 1)
  generate := fun n prompt _ => (.ok (prompt ++ " ..."), n + 1)
  config_check := fun _ => none
  open_file := fun path => if path = "prompt.txt" then some "a\nb\n" else none
  stdin := ["hi", "clear", "stop"]
  hardware_concurrency := 4

/-- As `echo_env`, with an engine whose `chat` always fails. -/
def failing_env : Env Nat Int :=
  { echo_env with
    chat := fun n _ _ => (.error (.other "context overflow"), n)
    stdin := ["hi", "again"] }

/-- As `echo_env`, with an engine that enforces the precondition of `chat`: it answers a
history of odd length (one that ends with a user turn) and throws on any other. -/
def strict_env : Env Nat Int :=
  { echo_env with
    chat := fun n history _ =>
      if history.length % 2 = 1 then (.ok ("re: " ++ history.getLast?.getD ""), n + 1)
      else (.error (.other "last entry is not a user turn"), n) }

/-- As `echo_env`, with the checks of the configuration modelled from the spec. -/
def checked_env : Env Nat Int :=
  { echo_env with config_check := invalid_config milli }

/-- The configuration built from the default arguments in `echo_env`. -/
def echo_config : GenerationConfig Int :=
  { max_total_length := 2048, max_context_length := 512, do_sample := true, top_k := 0,
    top_p := 700, temperature := 950, repeat_penalty := 1000, thread_hint := 0 }

/-! # Properties -/

/-! ## The prompt file -/

theorem getline_nil : getline [] = none := by
  simp [getline]

theorem getline_cons (c : Char) (cs : List Char) :
    getline (c :: cs) =
      some ((c :: cs).takeWhile (fun c => c ≠ '\n'),
        (c :: cs).drop (((c :: cs).takeWhile (fun c => c ≠ '\n')).length + 1)) := by
  simp [getline]

theorem filter_takeWhile_drop (s : List Char) :
    s.filter (fun c => c ≠ '\n') =
      s.takeWhile (fun c => c ≠ '\n') ++
        (s.drop ((s.takeWhile (fun c => c ≠ '\n')).length + 1)).filter (fun c => c ≠ '\n') := by
  induction s with
  | nil => simp
  | cons c cs ih =>
    by_cases hc : c = '\n'
    · simp [hc]
    · simp only [ne_eq, decide_not] at ih
      simp [hc]
      exact ih

/-- The loop over `getline` keeps every character of the file but the line feeds. -/
theorem read_content_eq (n : Nat) :
    ∀ infile content : List Char, infile.length ≤ n →
      read_content infile content = content ++ infile.filter (fun c => c ≠ '\n') := by
  induction n with
  | zero =>
    intro infile content h
    have : infile = [] := List.length_eq_zero.mp (Nat.le_zero.mp h)
    subst this
    rw [read_content]
    split
    · simp
    · rename_i heq
      simp [getline_nil] at heq
  | succ n ih =>
    intro infile content h
    cases infile with
    | nil =>
      rw [read_content]
      split
      · simp
      · rename_i heq
        simp [getline_nil] at heq
    | cons c cs =>
      rw [read_content]
      split
      · rename_i heq
        simp [getline_cons] at heq
      · rename_i line rest heq
        rw [getline_cons] at heq
        simp only [Option.some.injEq, Prod.mk.injEq] at heq
        obtain ⟨h1, h2⟩ := heq
        rw [ih]
        · rw [filter_takeWhile_drop (c :: cs), ← h1, ← h2]
          simp
        · rw [← h2]
          simp only [List.length_drop, List.length_cons] at h ⊢
          omega

theorem read_content_nil (infile : List Char) :
    read_content infile [] = infile.filter (fun c => c ≠ '\n') := by
  simpa using read_content_eq infile.length infile [] (Nat.le_refl _)

/-! ## The interactive loop: commands and one turn -/

/-- C2. In the interactive loop, for every state of the loop (history, pipeline, calls made
so far): the line "clear" empties the history and the loop goes on with the rest of the
input; the empty line changes nothing and the loop goes on; "stop" and the end of the
input both end the loop with the state as it was. In all four cases the pipeline and the
list of engine calls are the same before and after: no engine call is made and nothing is
appended. -/
theorem command_handling {σ F : Type} (env : Env σ F) (gen_config : GenerationConfig F)
    (st : LoopState σ F) (rest : List String) :
    interactive_loop env gen_config ("clear" :: rest) st
        = interactive_loop env gen_config rest
            { history := [], pipeline := st.pipeline, calls := st.calls }
    ∧ interactive_loop env gen_config ("" :: rest) st = interactive_loop env gen_config rest st
    ∧ interactive_loop env gen_config ("stop" :: rest) st = .finished st rest
    ∧ interactive_loop env gen_config [] st = .finished st [] := by
  simp [interactive_loop, gbk_to_utf8]

/-- C1, as the code has it. For a line `p` that is not empty and not a command: when
`pipeline.chat` succeeds, the loop goes on to the next input with the history followed by
exactly `p` and the reply; when it throws, `p` has been appended, the exception leaves the
loop with the rest of the input unread, `chat` ends by that exception and `main` exits
with `EXIT_FAILURE`. -/
theorem turn_outcome {σ F : Type} (env : Env σ F) (gen_config : GenerationConfig F)
    (st : LoopState σ F) (p : String) (rest : List String)
    (hempty : p ≠ "") (hstop : p ≠ "stop") (hclear : p ≠ "clear") :
    (∀ output pipeline,
        env.chat st.pipeline (st.history ++ [p]) gen_config = (.ok output, pipeline) →
        interactive_loop env gen_config (p :: rest) st
          = interactive_loop env gen_config rest
              { history := st.history ++ [p, output], pipeline := pipeline,
                calls := st.calls ++ [.chat (st.history ++ [p]) gen_config (.ok output)] })
    ∧ (∀ e pipeline,
        env.chat st.pipeline (st.history ++ [p]) gen_config = (.error e, pipeline) →
        interactive_loop env gen_config (p :: rest) st
          = .threw e
              { history := st.history ++ [p], pipeline := pipeline,
                calls := st.calls ++ [.chat (st.history ++ [p]) gen_config (.error e)] } rest)
    ∧ (∀ (args : Args F) pipeline0 e st1 unread,
        args.mode = INFERENCE_MODE_CHAT → args.interactive = true →
        env.load args.model_path = .ok pipeline0 →
        GenerationConfig.ctor env.config_check args.max_length args.max_context_length
          (env.floats.lt (env.floats.dec 0 0) args.temp) args.top_k args.top_p args.temp
          args.repeat_penalty args.num_threads = .ok gen_config →
        interactive_loop env gen_config env.stdin
          { history := [], pipeline := pipeline0, calls := [.load args.model_path] }
          = .threw e st1 unread →
        chat env args = { calls := st1.calls, unread := unread, ending := .threw e }
        ∧ main_end (chat env args)
            = { calls := st1.calls, unread := unread, ending := .exited EXIT_FAILURE }) := by
  refine ⟨?_, ?_, ?_⟩
  · intro output pipeline h
    simp [interactive_loop, gbk_to_utf8, hempty, hstop, hclear, h]
  · intro e pipeline h
    simp [interactive_loop, gbk_to_utf8, hempty, hstop, hclear, h]
  · intro args pipeline0 e st1 unread hmode hint hload hcfg hloop
    have hchat : chat env args = { calls := st1.calls, unread := unread, ending := .threw e } := by
      simp [chat, hmode, hint, hload, hcfg, hloop]
    refine ⟨hchat, ?_⟩
    rw [hchat]
    simp [main_end]

theorem turn_outcome_witness :
    ("hi" ≠ "" ∧ "hi" ≠ "stop" ∧ "hi" ≠ "clear")
    ∧ interactive_loop echo_env echo_config ["hi", "stop"] { history := [], pipeline := 0, calls := [] }
        = interactive_loop echo_env echo_config ["stop"]
            { history := ["hi", "re: hi"], pipeline := 1,
              calls := [.chat ["hi"] echo_config (.ok "re: hi")] } :=
  ⟨by decide,
   (turn_outcome echo_env echo_config { history := [], pipeline := 0, calls := [] } "hi" ["stop"]
      (by decide) (by decide) (by decide)).1 "re: hi" 1 (by decide)⟩

/-- C1 fails as stated: with an engine whose `chat` throws, the turn "hi" on the history
["q", "a"] leaves the loop by the exception with the history ["q", "a", "hi"] and the next
line unread; the loop does not go on from a state whose history is ["q", "a"]; and the
process exits with `EXIT_FAILURE`. -/
theorem turn_failure_counterexample :
    interactive_loop failing_env echo_config ["hi", "again"]
        { history := ["q", "a"], pipeline := 0, calls := [] }
      = .threw (.other "context overflow")
          { history := ["q", "a", "hi"], pipeline := 0,
            calls := [.chat ["q", "a", "hi"] echo_config (.error (.other "context overflow"))] }
          ["again"]
    ∧ (¬ ∃ st1 : LoopState Nat Int, st1.history = ["q", "a"] ∧
        interactive_loop failing_env echo_config ["hi", "again"]
            { history := ["q", "a"], pipeline := 0, calls := [] }
          = interactive_loop failing_env echo_config ["again"] st1)
    ∧ main failing_env ["main", "-i"]
      = { calls := [.load "chatglm-ggml.bin",
                    .chat ["hi"] echo_config (.error (.other "context overflow"))],
          unread := ["again"], ending := .exited EXIT_FAILURE } := by
  refine ⟨by decide, ?_, by decide⟩
  rintro ⟨st1, -, h⟩
  simp [interactive_loop, gbk_to_utf8, failing_env] at h

/-! ## `parse_args`: a flag without its value -/

/-- C4, the code at the failing inputs: when a flag that takes a value is the last token,
`parse_args` reads `argv[argv.size()]`; it prints no usage and calls no `exit`. -/
theorem parse_args_missing_value {F : Type} (fl : FloatOps F) (prog : String) :
    value_flags.map (fun flag => parse_args fl [prog, flag])
      = value_flags.map (fun _ => ParseResult.out_of_bounds) := by
  simp [value_flags, parse_args, parse_loop]

/-! ## The prompt file in `chat` -/

/-- C7, the code at the failing input: with the prompt "P" and a readable file holding
"a", line feed, "b", line feed, the history given to `pipeline.chat` is ["Pab"]: the line
feeds of the file are gone. In general the loop over `getline` yields the characters of the
file without its line feeds. -/
theorem prompt_file_loses_line_feeds :
    echo_env.open_file "prompt.txt" = some "a\nb\n"
    ∧ (chat echo_env { Args.default milli with prompt := "P", file := "prompt.txt" }).calls
      = [.load "chatglm-ggml.bin", .chat ["Pab"] echo_config (.ok "re: Pab")]
    ∧ "Pab" ≠ "P" ++ "a\nb\n"
    ∧ ∀ infile : List Char, read_content infile [] = infile.filter (fun c => c ≠ '\n') := by
  refine ⟨by decide, ?_, by decide, read_content_nil⟩
  simp [chat, echo_env, Args.default, GenerationConfig.ctor, milli, read_content_nil, echo_config]

/-- C8 fails as stated: with `-f missing.txt`, a file that cannot be opened, generate mode
calls `generate` and exits with status 0, interactive mode runs its loop and exits with
status 0, and in non-interactive chat mode the model has been loaded before the exit. -/
theorem missing_file_counterexample :
    echo_env.open_file "missing.txt" = none
    ∧ main echo_env ["main", "--mode", "generate", "-f", "missing.txt"]
      = { calls := [.load "chatglm-ggml.bin", .generate "你好" echo_config (.ok "你好 ...")],
          unread := ["hi", "clear", "stop"], ending := .exited 0 }
    ∧ main echo_env ["main", "-i", "-f", "missing.txt"]
      = { calls := [.load "chatglm-ggml.bin", .chat ["hi"] echo_config (.ok "re: hi")],
          unread := [], ending := .exited 0 }
    ∧ main echo_env ["main", "-f", "missing.txt"]
      = { calls := [.load "chatglm-ggml.bin"], unread := ["hi", "clear", "stop"],
          ending := .exited EXIT_FAILURE } := by
  decide

/-- C8, as the code has it. For arguments whose file is a non-empty path that cannot
be opened: in chat mode with the interactive flag off the only engine call is the model
load (no `chat`, no `generate`) and the process exits with `EXIT_FAILURE`; in generate
mode or with the interactive flag on, the file is never opened: the run is the same
whatever the file system holds. -/
theorem missing_file {σ F : Type} (env : Env σ F) (args : Args F)
    (hfile : args.file ≠ "") (hopen : env.open_file args.file = none) :
    (args.mode = INFERENCE_MODE_CHAT → args.interactive = false →
        (chat env args).calls = [.load args.model_path]
        ∧ (main_end (chat env args)).calls = [.load args.model_path]
        ∧ (main_end (chat env args)).ending = .exited EXIT_FAILURE)
    ∧ (args.mode = INFERENCE_MODE_GENERATE ∨ args.interactive = true →
        ∀ files : String → Option String,
          chat { env with open_file := files } args = chat env args) := by
  constructor
  · intro hmode hint
    unfold chat
    cases hload : env.load args.model_path with
    | error e => simp [main_end]
    | ok pipeline =>
      cases hcfg : GenerationConfig.ctor env.config_check args.max_length
          args.max_context_length (env.floats.lt (env.floats.dec 0 0) args.temp) args.top_k
          args.top_p args.temp args.repeat_penalty args.num_threads with
      | error e => simp [main_end]
      | ok gen_config => simp [main_end, hmode, hint, hfile, hopen]
  · intro h files
    have hloop : ∀ (c : GenerationConfig F) (stdin : List String) (st : LoopState σ F),
        interactive_loop { env with open_file := files } c stdin st
          = interactive_loop env c stdin st := by
      intro c stdin
      induction stdin with
      | nil => intro st; simp [interactive_loop]
      | cons line stdin ih =>
        intro st
        simp only [interactive_loop, ih]
    unfold chat
    cases hload : env.load args.model_path with
    | error e => simp
    | ok pipeline =>
      cases hcfg : GenerationConfig.ctor env.config_check args.max_length
          args.max_context_length (env.floats.lt (env.floats.dec 0 0) args.temp) args.top_k
          args.top_p args.temp args.repeat_penalty args.num_threads with
      | error e => simp
      | ok gen_config =>
        rcases h with h | h
        · cases hint : args.interactive <;> simp [h, hloop]
        · cases hmode : args.mode <;> simp [h, hloop]

theorem missing_file_witness :
    ({ Args.default milli with file := "missing.txt" } : Args Int).file ≠ ""
    ∧ (chat echo_env { Args.default milli with file := "missing.txt" }).calls
        = [.load "chatglm-ggml.bin"] :=
  ⟨by decide,
   ((missing_file echo_env { Args.default milli with file := "missing.txt" }
      (by decide) (by decide)).1 (by decide) (by decide)).1⟩

/-! ## The generation configuration -/

/-- C9, with the constructor of `GenerationConfig` modelled from the spec. For arguments
whose `max_context_length` is greater than `max_length`, the construction in `chat` throws
the configuration error; `chat` then ends by an exception with the model load as its only
engine call (no `chat`, no `generate`), and `main` exits with `EXIT_FAILURE`. -/
theorem invalid_config_rejected {σ F : Type} (env : Env σ F) (args : Args F)
    (hcheck : env.config_check = invalid_config env.floats)
    (hlen : args.max_length < args.max_context_length) :
    GenerationConfig.ctor env.config_check args.max_length args.max_context_length
        (env.floats.lt (env.floats.dec 0 0) args.temp) args.top_k args.top_p args.temp
        args.repeat_penalty args.num_threads = .error (.other "InvalidConfig")
    ∧ (chat env args).calls = [.load args.model_path]
    ∧ (∃ e, (chat env args).ending = .threw e)
    ∧ (main_end (chat env args)).ending = .exited EXIT_FAILURE := by
  have hctor : GenerationConfig.ctor env.config_check args.max_length args.max_context_length
        (env.floats.lt (env.floats.dec 0 0) args.temp) args.top_k args.top_p args.temp
        args.repeat_penalty args.num_threads = .error (.other "InvalidConfig") := by
    simp [GenerationConfig.ctor, hcheck, invalid_config, hlen]
  refine ⟨hctor, ?_⟩
  unfold chat
  cases hload : env.load args.model_path with
  | error e => simp [main_end]
  | ok pipeline => simp [main_end, hctor]

theorem invalid_config_rejected_witness :
    (({ Args.default milli with max_context_length := 4096 } : Args Int).max_length
        < ({ Args.default milli with max_context_length := 4096 } : Args Int).max_context_length)
    ∧ (chat checked_env { Args.default milli with max_context_length := 4096 }).calls
        = [.load "chatglm-ggml.bin"] :=
  ⟨by decide,
   (invalid_config_rejected checked_env { Args.default milli with max_context_length := 4096 }
      rfl (by decide)).2.1⟩

theorem interactive_loop_configs {σ F : Type} (env : Env σ F) (gen_config : GenerationConfig F)
    (P : GenerationConfig F → Prop) (hP : P gen_config) :
    ∀ (stdin : List String) (st : LoopState σ F),
      (∀ c ∈ st.calls.filterMap Call.config, P c) →
      (∀ st1 unread, interactive_loop env gen_config stdin st = .finished st1 unread →
        ∀ c ∈ st1.calls.filterMap Call.config, P c)
      ∧ (∀ e st1 unread, interactive_loop env gen_config stdin st = .threw e st1 unread →
        ∀ c ∈ st1.calls.filterMap Call.config, P c) := by
  intro stdin
  induction stdin with
  | nil =>
    intro st hst
    simp only [interactive_loop]
    constructor
    · intro st1 unread h
      simp only [LoopEnd.finished.injEq] at h
      rw [← h.1]
      exact hst
    · intro e st1 unread h
      simp at h
  | cons line stdin ih =>
    intro st hst
    simp only [interactive_loop, gbk_to_utf8]
    split_ifs with h1 h2 h3
    · constructor
      · intro st1 unread h
        simp only [LoopEnd.finished.injEq] at h
        rw [← h.1]
        exact hst
      · intro e st1 unread h
        simp at h
    · exact ih st hst
    · exact ih _ hst
    · cases hchat : env.chat st.pipeline (st.history ++ [line]) gen_config with
      | mk result pipeline =>
        cases result with
        | error e =>
          simp only
          constructor
          · intro st1 unread h
            simp at h
          · intro e1 st1 unread h
            simp only [LoopEnd.threw.injEq] at h
            rw [← h.2.1]
            intro c hc
            simp only [List.filterMap_append, List.mem_append] at hc
            rcases hc with hc | hc
            · exact hst c hc
            · simp [Call.config] at hc
              rw [hc]
              exact hP
        | ok output =>
          simp only
          apply ih
          intro c hc
          simp only [List.filterMap_append, List.mem_append] at hc
          rcases hc with hc | hc
          · exact hst c hc
          · simp [Call.config] at hc
            rw [hc]
            exact hP

theorem chat_configs {σ F : Type} (env : Env σ F) (args : Args F) (c : GenerationConfig F)
    (hc : c ∈ (chat env args).calls.filterMap Call.config) :
    c.temperature = args.temp
    ∧ c.do_sample = env.floats.lt (env.floats.dec 0 0) args.temp := by
  unfold chat at hc
  cases hload : env.load args.model_path with
  | error e => simp [hload, Call.config] at hc
  | ok pipeline =>
    rw [hload] at hc
    simp only at hc
    cases hcfg : GenerationConfig.ctor env.config_check args.max_length
        args.max_context_length (env.floats.lt (env.floats.dec 0 0) args.temp) args.top_k
        args.top_p args.temp args.repeat_penalty args.num_threads with
    | error e => simp [hcfg, Call.config] at hc
    | ok gen_config =>
      rw [hcfg] at hc
      simp only at hc
      have hgen : gen_config.temperature = args.temp
          ∧ gen_config.do_sample = env.floats.lt (env.floats.dec 0 0) args.temp := by
        unfold GenerationConfig.ctor at hcfg
        simp only at hcfg
        split at hcfg
        · simp at hcfg
        · simp only [Except.ok.injEq] at hcfg
          rw [← hcfg]
          exact ⟨rfl, rfl⟩
      have hloop := interactive_loop_configs env gen_config
        (fun c => c.temperature = args.temp
          ∧ c.do_sample = env.floats.lt (env.floats.dec 0 0) args.temp) hgen env.stdin
        { history := [], pipeline := pipeline, calls := [.load args.model_path] }
        (by simp [Call.config])
      have hgenerate : c ∈ List.filterMap Call.config
          (match env.generate pipeline args.prompt gen_config with
            | (Except.error e, _) =>
              ({ calls := [.load args.model_path, .generate args.prompt gen_config (.error e)],
                 unread := env.stdin, ending := .threw e } : Run F)
            | (Except.ok output, _) =>
              { calls := [.load args.model_path, .generate args.prompt gen_config (.ok output)],
                unread := env.stdin, ending := .returned }).calls →
          c.temperature = args.temp
            ∧ c.do_sample = env.floats.lt (env.floats.dec 0 0) args.temp := by
        intro hc
        cases hgenr : env.generate pipeline args.prompt gen_config with
        | mk result pipeline1 =>
          rw [hgenr] at hc
          cases result <;> simp [Call.config] at hc <;> rw [hc] <;> exact hgen
      cases hint : args.interactive <;> cases hmode : args.mode <;>
        simp only [hint, hmode, ne_eq, not_true_eq_false, not_false_eq_true, false_and, and_false,
          and_self, and_true, if_true, if_false, Bool.false_eq_true, reduceCtorEq, ite_self] at hc
      · generalize hl : (if ¬args.file = "" then
            match env.open_file args.file with
            | none => none
            | some infile => some (args.prompt ++ String.mk (read_content infile.toList []))
          else some args.prompt) = loaded at hc
        cases loaded with
        | none => simp [Call.config] at hc
        | some prompt =>
          simp only at hc
          cases hchat : env.chat pipeline [prompt] gen_config with
          | mk result pipeline1 =>
            rw [hchat] at hc
            cases result <;> simp [Call.config] at hc <;> rw [hc] <;> exact hgen
      · exact hgenerate hc
      · cases hl : interactive_loop env gen_config env.stdin
            { history := [], pipeline := pipeline, calls := [.load args.model_path] } with
        | finished st1 unread =>
          rw [hl] at hc
          exact hloop.1 st1 unread hl c hc
        | threw e st1 unread =>
          rw [hl] at hc
          exact hloop.2 e st1 unread hl c hc
      · exact hgenerate hc

/-- C10. Every `GenerationConfig` that `chat` passes to the engine (to `pipeline.chat` in
or outside the interactive loop, or to `pipeline.generate`) has its temperature equal to
`args.temp` and `do_sample` equal to `args.temp > 0`; and for every command line, every
configuration passed to the engine in the run of `main` has `do_sample` equal to
`temperature > 0`: no flag sets it apart from the temperature. -/
theorem do_sample_derived {σ F : Type} (env : Env σ F) :
    (∀ (args : Args F) (c : GenerationConfig F),
        c ∈ (chat env args).calls.filterMap Call.config →
        c.temperature = args.temp
        ∧ c.do_sample = env.floats.lt (env.floats.dec 0 0) args.temp)
    ∧ (∀ (argv : List String) (c : GenerationConfig F),
        c ∈ (main env argv).calls.filterMap Call.config →
        c.do_sample = env.floats.lt (env.floats.dec 0 0) c.temperature) := by
  refine ⟨fun args c hc => chat_configs env args c hc, ?_⟩
  intro argv c hc
  unfold main at hc
  split at hc
  · simp at hc
  · simp at hc
  · simp at hc
  · rename_i parsed _
    have hcalls : (main_end (chat env (main_args env argv parsed))).calls
        = (chat env (main_args env argv parsed)).calls := by
      unfold main_end
      split <;> rfl
    rw [hcalls] at hc
    have h := chat_configs env _ c hc
    rw [h.2, h.1]

theorem do_sample_derived_witness :
    ({ echo_config with do_sample := false, temperature := 0 } : GenerationConfig Int)
        ∈ (main echo_env ["main", "--temp", "0"]).calls.filterMap Call.config
    ∧ ({ echo_config with do_sample := false, temperature := 0 } : GenerationConfig Int).do_sample
        = echo_env.floats.lt (echo_env.floats.dec 0 0)
            ({ echo_config with do_sample := false, temperature := 0 }
              : GenerationConfig Int).temperature :=
  ⟨by decide, (do_sample_derived echo_env).2 ["main", "--temp", "0"] _ (by decide)⟩

/-! ## The history of the interactive loop -/

theorem turns_append_clear (pre : List String) : turns (pre ++ ["clear"]) = [] := by
  simp [turns]

theorem turns_append_empty (pre : List String) : turns (pre ++ [""]) = turns pre := by
  simp [turns, List.takeWhile_cons]

theorem turns_append_line (pre : List String) (l : String)
    (h1 : l ≠ "") (h2 : l ≠ "stop") (h3 : l ≠ "clear") :
    turns (pre ++ [l]) = turns pre ++ [l] := by
  simp [turns, List.takeWhile_cons, h1, h2, h3, List.filter_cons]

theorem loop_head_append {σ F : Type} (env : Env σ F) (gen_config : GenerationConfig F)
    (pre post : List String) :
    ∀ st : LoopState σ F,
      loop_head env gen_config (pre ++ post) st
        = (loop_head env gen_config pre st).bind (loop_head env gen_config post) := by
  induction pre with
  | nil => intro st; simp [loop_head]
  | cons line pre ih =>
    intro st
    simp only [List.cons_append, loop_head, gbk_to_utf8]
    split_ifs
    · rfl
    · exact ih st
    · exact ih _
    · cases env.chat st.pipeline (st.history ++ [line]) gen_config with
      | mk result pipeline =>
        cases result with
        | error e => rfl
        | ok output => exact ih _

theorem interactive_loop_append {σ F : Type} (env : Env σ F) (gen_config : GenerationConfig F)
    (pre rest : List String) :
    ∀ st st1 : LoopState σ F, loop_head env gen_config pre st = some st1 →
      interactive_loop env gen_config (pre ++ rest) st = interactive_loop env gen_config rest st1 := by
  induction pre with
  | nil =>
    intro st st1 h
    simp only [loop_head, Option.some.injEq] at h
    simp [h]
  | cons line pre ih =>
    intro st st1 h
    simp only [loop_head, gbk_to_utf8] at h
    simp only [List.cons_append, interactive_loop, gbk_to_utf8]
    split_ifs at h ⊢
    · exact ih st st1 h
    · exact ih _ st1 h
    · cases hchat : env.chat st.pipeline (st.history ++ [line]) gen_config with
      | mk result pipeline =>
        rw [hchat] at h
        cases result with
        | error e => simp at h
        | ok output => exact ih _ st1 h

theorem alternates_clear {σ F : Type} (gen_config : GenerationConfig F) (st : LoopState σ F) :
    Alternates gen_config { st with history := [] } [] := by
  refine ⟨by simp, by simp, st.calls, [], by simp, by simp, by simp⟩

theorem alternates_turn {σ F : Type} (gen_config : GenerationConfig F) (st : LoopState σ F)
    (ts : List String) (p output : String) (pipeline : σ) (h : Alternates gen_config st ts) :
    Alternates gen_config
      { history := st.history ++ [p] ++ [output], pipeline := pipeline,
        calls := st.calls ++ [.chat (st.history ++ [p]) gen_config (.ok output)] }
      (ts ++ [p]) := by
  obtain ⟨hlen, heven, earlier, recent, hcalls, hrecent, hodd⟩ := h
  refine ⟨?_, ?_, earlier, recent ++ [.chat (st.history ++ [p]) gen_config (.ok output)],
    ?_, ?_, ?_⟩
  · simp [hlen]; omega
  · intro k hk
    simp only [List.length_append, List.length_singleton] at hk
    simp only [List.append_assoc, List.singleton_append]
    by_cases hkn : k < ts.length
    · rw [List.getElem?_append_left (by omega), List.getElem?_append_left hkn]
      exact heven k hkn
    · have hk2 : k = ts.length := by omega
      subst hk2
      rw [List.getElem?_append_right (by omega), List.getElem?_append_right (by omega)]
      simp [hlen]
  · simp [hcalls]
  · simp [hrecent]
  · intro k hk
    simp only [List.length_append, List.length_singleton] at hk
    simp only [List.append_assoc, List.singleton_append]
    by_cases hkn : k < ts.length
    · obtain ⟨reply, h1, h2⟩ := hodd k hkn
      refine ⟨reply, ?_, ?_⟩
      · rw [List.getElem?_append_left (by omega)]
        exact h1
      · rw [List.getElem?_append_left (by omega), List.take_append_of_le_length (by omega)]
        exact h2
    · have hk2 : k = ts.length := by omega
      subst hk2
      refine ⟨output, ?_, ?_⟩
      · rw [List.getElem?_append_right (by omega)]
        simp [hlen]
      · rw [List.getElem?_append_right (by omega)]
        have : 2 * ts.length + 1 = st.history.length + 1 := by omega
        rw [this, List.take_append]
        simp [hrecent]

theorem loop_head_alternates {σ F : Type} (env : Env σ F) (gen_config : GenerationConfig F)
    (st0 : LoopState σ F) (h0 : st0.history = []) (pre : List String) :
    ∀ st, loop_head env gen_config pre st0 = some st →
      Alternates gen_config st (turns pre) := by
  induction pre using List.reverseRecOn with
  | nil =>
    intro st h
    simp only [loop_head, Option.some.injEq] at h
    subst h
    refine ⟨by simp [h0, turns], by simp [turns], st0.calls, [], by simp, by simp [turns],
      by simp [turns]⟩
  | append_singleton pre l ih =>
    intro st h
    rw [loop_head_append] at h
    cases hp : loop_head env gen_config pre st0 with
    | none => simp [hp] at h
    | some st1 =>
      have halt := ih st1 hp
      simp only [hp, Option.some_bind, loop_head, gbk_to_utf8] at h
      by_cases hl : l = "stop"
      · simp [hl] at h
      · by_cases h1 : l = ""
        · subst h1
          simp only [hl, if_false, if_true, Option.some.injEq] at h
          subst h
          rw [turns_append_empty]
          exact halt
        · by_cases h2 : l = "clear"
          · subst h2
            simp only [hl, h1, if_false, if_true, Option.some.injEq] at h
            subst h
            rw [turns_append_clear]
            exact alternates_clear gen_config st1
          · simp only [hl, h1, h2, if_false] at h
            cases hchat : env.chat st1.pipeline (st1.history ++ [l]) gen_config with
            | mk result pipeline =>
              rw [hchat] at h
              cases result with
              | error e => simp at h
              | ok output =>
                simp only [Option.some.injEq] at h
                subst h
                rw [turns_append_line pre l h1 hl h2]
                exact alternates_turn gen_config st1 (turns pre) l output pipeline halt

/-- When the loop has ended before it could read again after the lines `pre`, either "stop"
is among them or `pipeline.chat` has thrown on the way. -/
theorem loop_head_none {σ F : Type} (env : Env σ F) (gen_config : GenerationConfig F)
    (pre : List String) :
    ∀ st : LoopState σ F, loop_head env gen_config pre st = none →
      "stop" ∈ pre
      ∨ ∀ rest, ∃ e st1 unread,
          interactive_loop env gen_config (pre ++ rest) st = .threw e st1 unread := by
  induction pre with
  | nil => intro st h; simp [loop_head] at h
  | cons line pre ih =>
    intro st h
    simp only [loop_head, gbk_to_utf8] at h
    by_cases hl : line = "stop"
    · exact Or.inl (by simp [hl])
    · have hstep : ∀ st1 : LoopState σ F,
          (∀ rest, interactive_loop env gen_config (line :: pre ++ rest) st
            = interactive_loop env gen_config (pre ++ rest) st1) →
          loop_head env gen_config pre st1 = none →
          "stop" ∈ line :: pre
          ∨ ∀ rest, ∃ e st2 unread,
              interactive_loop env gen_config (line :: pre ++ rest) st = .threw e st2 unread := by
        intro st1 hloop hnone
        rcases ih st1 hnone with hs | ht
        · exact Or.inl (by simp [hs])
        · refine Or.inr (fun rest => ?_)
          rw [hloop rest]
          exact ht rest
      by_cases h1 : line = ""
      · simp only [hl, h1, if_false, if_true] at h
        refine hstep st (fun rest => ?_) h
        simp [interactive_loop, gbk_to_utf8, h1]
      · by_cases h2 : line = "clear"
        · simp only [hl, h1, h2, if_false, if_true] at h
          refine hstep _ (fun rest => ?_) h
          simp [interactive_loop, gbk_to_utf8, h2]
        · simp only [hl, h1, h2, if_false] at h
          cases hchat : env.chat st.pipeline (st.history ++ [line]) gen_config with
          | mk result pipeline =>
            rw [hchat] at h
            cases result with
            | error e =>
              refine Or.inr (fun rest => ⟨e,
                { history := st.history ++ [line], pipeline := pipeline,
                  calls := st.calls ++ [.chat (st.history ++ [line]) gen_config (.error e)] },
                pre ++ rest, ?_⟩)
              simp only [List.cons_append, interactive_loop, gbk_to_utf8, hl, h1, h2, if_false,
                hchat]
              rfl
            | ok output =>
              simp only at h
              refine hstep _ (fun rest => ?_) h
              simp only [List.cons_append, interactive_loop, gbk_to_utf8, hl, h1, h2, if_false,
                hchat]
              rfl

/-- C3. From the empty history, for every engine and every sequence of input lines:
whenever the loop is about to read an input, after the lines `pre`, in a state `st` (it
goes on from `st` with the rest of the input), the history of `st` has length twice the
number of lines of `pre` that are neither empty nor commands and come after the last
"clear"; its entries at the even positions are those lines in order; and each entry at an
odd position is the reply recorded for the call of `pipeline.chat` on the history up to
the entry before it, those calls being the last ones made. The loop does reach that point
after every `pre` without "stop" in a run whose engine calls all succeed, that is, a run
that does not end by an exception of `pipeline.chat`. On the inputs "hi", "clear", "stop",
when the call succeeds, the lengths are 2, then 0, and the loop then ends. -/
theorem history_invariant {σ F : Type} (env : Env σ F) (gen_config : GenerationConfig F)
    (pipeline0 : σ) (calls0 : List (Call F)) :
    (∀ (pre : List String) (st : LoopState σ F),
      loop_head env gen_config pre { history := [], pipeline := pipeline0, calls := calls0 }
        = some st →
      (∀ rest, interactive_loop env gen_config (pre ++ rest)
            { history := [], pipeline := pipeline0, calls := calls0 }
          = interactive_loop env gen_config rest st)
      ∧ st.history.length = 2 * (turns pre).length
      ∧ (∀ k, k < (turns pre).length → st.history[2 * k]? = (turns pre)[k]?)
      ∧ ∃ earlier recent : List (Call F),
          st.calls = earlier ++ recent ∧ recent.length = (turns pre).length
          ∧ ∀ k, k < (turns pre).length → ∃ reply,
              st.history[2 * k + 1]? = some reply
              ∧ recent[k]?
                = some (.chat (st.history.take (2 * k + 1)) gen_config (.ok reply)))
    ∧ (∀ pre rest : List String, "stop" ∉ pre →
        (∀ e st1 unread, interactive_loop env gen_config (pre ++ rest)
            { history := [], pipeline := pipeline0, calls := calls0 } ≠ .threw e st1 unread) →
        ∃ st : LoopState σ F,
          loop_head env gen_config pre { history := [], pipeline := pipeline0, calls := calls0 }
            = some st)
    ∧ ((∀ e st1 unread, interactive_loop env gen_config ["hi", "clear", "stop"]
            { history := [], pipeline := pipeline0, calls := calls0 } ≠ .threw e st1 unread) →
        ∃ st1 st2 : LoopState σ F,
          loop_head env gen_config ["hi"]
              { history := [], pipeline := pipeline0, calls := calls0 } = some st1
          ∧ st1.history.length = 2
          ∧ loop_head env gen_config ["hi", "clear"]
              { history := [], pipeline := pipeline0, calls := calls0 } = some st2
          ∧ st2.history.length = 0
          ∧ interactive_loop env gen_config ["hi", "clear", "stop"]
              { history := [], pipeline := pipeline0, calls := calls0 } = .finished st2 []) := by
  have hinv : ∀ (pre : List String) (st : LoopState σ F),
      loop_head env gen_config pre { history := [], pipeline := pipeline0, calls := calls0 }
        = some st →
      (∀ rest, interactive_loop env gen_config (pre ++ rest)
            { history := [], pipeline := pipeline0, calls := calls0 }
          = interactive_loop env gen_config rest st)
      ∧ Alternates gen_config st (turns pre) := by
    intro pre st hst
    exact ⟨fun rest => interactive_loop_append env gen_config pre rest _ st hst,
      loop_head_alternates env gen_config
        { history := [], pipeline := pipeline0, calls := calls0 } rfl pre st hst⟩
  have hreach : ∀ pre rest : List String, "stop" ∉ pre →
      (∀ e st1 unread, interactive_loop env gen_config (pre ++ rest)
          { history := [], pipeline := pipeline0, calls := calls0 } ≠ .threw e st1 unread) →
      ∃ st : LoopState σ F,
        loop_head env gen_config pre { history := [], pipeline := pipeline0, calls := calls0 }
          = some st := by
    intro pre rest hstop hrun
    cases hp : loop_head env gen_config pre
        { history := [], pipeline := pipeline0, calls := calls0 } with
    | some st => exact ⟨st, rfl⟩
    | none =>
      rcases loop_head_none env gen_config pre _ hp with hs | ht
      · exact absurd hs hstop
      · obtain ⟨e, st1, unread, h⟩ := ht rest
        exact absurd h (hrun e st1 unread)
  refine ⟨?_, hreach, ?_⟩
  · intro pre st hst
    obtain ⟨hloop, halt⟩ := hinv pre st hst
    exact ⟨hloop, halt⟩
  · intro hrun
    obtain ⟨st1, hst1⟩ := hreach ["hi"] ["clear", "stop"] (by decide) hrun
    obtain ⟨st2, hst2⟩ := hreach ["hi", "clear"] ["stop"] (by decide) hrun
    obtain ⟨-, halt1⟩ := hinv ["hi"] st1 hst1
    obtain ⟨hloop2, halt2⟩ := hinv ["hi", "clear"] st2 hst2
    refine ⟨st1, st2, hst1, ?_, hst2, ?_, ?_⟩
    · have := halt1.1
      simpa [turns] using this
    · have := halt2.1
      simpa [turns] using this
    · have := hloop2 ["stop"]
      simp only [List.cons_append, List.nil_append] at this
      rw [this]
      simp [interactive_loop, gbk_to_utf8]

theorem history_invariant_witness :
    (∀ e st1 unread, interactive_loop strict_env echo_config (["hi", "", "you"] ++ ["stop"])
        { history := [], pipeline := 0, calls := [] } ≠ .threw e st1 unread)
    ∧ ∃ st : LoopState Nat Int,
        loop_head strict_env echo_config ["hi", "", "you"]
            { history := [], pipeline := 0, calls := [] } = some st
        ∧ st.history.length = 2 * (turns ["hi", "", "you"]).length :=
  have hrun : ∀ e st1 unread,
      interactive_loop strict_env echo_config (["hi", "", "you"] ++ ["stop"])
        { history := [], pipeline := 0, calls := [] } ≠ .threw e st1 unread := by
    intro e st1 unread h
    simp [interactive_loop, gbk_to_utf8, strict_env, echo_env] at h
  ⟨hrun,
   match (history_invariant strict_env echo_config 0 []).2.1 ["hi", "", "you"] ["stop"]
      (by decide) hrun with
   | ⟨st, hst⟩ =>
     ⟨st, hst, ((history_invariant strict_env echo_config 0 []).1 ["hi", "", "you"] st hst).2.1⟩⟩

/-! ## `parse_args` over flag groups -/

/-- One iteration of the loop of `parse_args`, by the table of flags. -/
theorem parse_loop_cons {F : Type} (fl : FloatOps F) (prog arg : String) (rest : List String)
    (args : Args F) :
    parse_loop fl prog (arg :: rest) args =
      match flag_of arg with
      | none => .exit [.unknown_argument arg, .usage prog] EXIT_FAILURE
      | some f =>
        if f.takes_value = true then
          match rest with
          | [] => .out_of_bounds
          | v :: rest1 => after_effect prog (parse_loop fl prog rest1) args (effect fl f v)
        else
          after_effect prog (parse_loop fl prog rest) args (effect fl f "") := by
  rw [parse_loop.eq_def]
  simp only
  unfold flag_of
  by_cases h0 : arg = "-h" ∨ arg = "--help"
  · rw [if_pos h0, if_pos h0]
    rfl
  rw [if_neg h0, if_neg h0]
  by_cases h1 : arg = "-m" ∨ arg = "--model"
  · rw [if_pos h1, if_pos h1]
    cases rest with
    | nil => rfl
    | cons v rest1 => rfl
  rw [if_neg h1, if_neg h1]
  by_cases h2 : arg = "--mode"
  · rw [if_pos h2, if_pos h2]
    cases rest with
    | nil => rfl
    | cons v rest1 =>
      simp only [Flag.takes_value, if_true, effect]
      cases to_inference_mode v <;> rfl
  rw [if_neg h2, if_neg h2]
  by_cases h3 : arg = "-p" ∨ arg = "--prompt"
  · rw [if_pos h3, if_pos h3]
    cases rest with
    | nil => rfl
    | cons v rest1 => rfl
  rw [if_neg h3, if_neg h3]
  by_cases h4 : arg = "-f" ∨ arg = "--file"
  · rw [if_pos h4, if_pos h4]
    cases rest with
    | nil => rfl
    | cons v rest1 => rfl
  rw [if_neg h4, if_neg h4]
  by_cases h5 : arg = "-i" ∨ arg = "--interactive"
  · rw [if_pos h5, if_pos h5]
    rfl
  rw [if_neg h5, if_neg h5]
  by_cases h6 : arg = "-l" ∨ arg = "--max_length"
  · rw [if_pos h6, if_pos h6]
    cases rest with
    | nil => rfl
    | cons v rest1 =>
      simp only [Flag.takes_value, if_true, effect]
      cases stoi v <;> rfl
  rw [if_neg h6, if_neg h6]
  by_cases h7 : arg = "-c" ∨ arg = "--max_context_length"
  · rw [if_pos h7, if_pos h7]
    cases rest with
    | nil => rfl
    | cons v rest1 =>
      simp only [Flag.takes_value, if_true, effect]
      cases stoi v <;> rfl
  rw [if_neg h7, if_neg h7]
  by_cases h8 : arg = "--top_k"
  · rw [if_pos h8, if_pos h8]
    cases rest with
    | nil => rfl
    | cons v rest1 =>
      simp only [Flag.takes_value, if_true, effect]
      cases stoi v <;> rfl
  rw [if_neg h8, if_neg h8]
  by_cases h9 : arg = "--top_p"
  · rw [if_pos h9, if_pos h9]
    cases rest with
    | nil => rfl
    | cons v rest1 =>
      simp only [Flag.takes_value, if_true, effect]
      cases fl.stof v <;> rfl
  rw [if_neg h9, if_neg h9]
  by_cases h10 : arg = "--temp"
  · rw [if_pos h10, if_pos h10]
    cases rest with
    | nil => rfl
    | cons v rest1 =>
      simp only [Flag.takes_value, if_true, effect]
      cases fl.stof v <;> rfl
  rw [if_neg h10, if_neg h10]
  by_cases h11 : arg = "--repeat_penalty"
  · rw [if_pos h11, if_pos h11]
    cases rest with
    | nil => rfl
    | cons v rest1 =>
      simp only [Flag.takes_value, if_true, effect]
      cases fl.stof v <;> rfl
  rw [if_neg h11, if_neg h11]
  by_cases h12 : arg = "-t" ∨ arg = "--threads"
  · rw [if_pos h12, if_pos h12]
    cases rest with
    | nil => rfl
    | cons v rest1 =>
      simp only [Flag.takes_value, if_true, effect]
      cases stoi v <;> rfl
  rw [if_neg h12, if_neg h12]
  by_cases h13 : arg = "-v" ∨ arg = "--verbose"
  · rw [if_pos h13, if_pos h13]
    rfl
  rw [if_neg h13, if_neg h13]

/-- A complete group at the head of the tokens is one branch of the loop. -/
theorem parse_loop_group {F : Type} (fl : FloatOps F) (prog : String) (g : Group) (f : Flag)
    (hf : flag_of g.name = some f) (hv : f.takes_value = g.value.isSome)
    (rest : List String) (args : Args F) :
    parse_loop fl prog (g.tokens ++ rest) args
      = after_effect prog (parse_loop fl prog rest) args (effect fl f (g.value.getD "")) := by
  obtain ⟨name, value⟩ := g
  cases value with
  | none =>
    simp only [Option.isSome_none] at hv
    simp only [Group.tokens, Option.toList, List.cons_append, List.nil_append, Option.getD_none]
    rw [parse_loop_cons]
    simp only at hf
    simp [hf, hv]
  | some v =>
    simp only [Option.isSome_some] at hv
    simp only [Group.tokens, Option.toList, List.cons_append, List.nil_append, Option.getD_some]
    rw [parse_loop_cons]
    simp only at hf
    simp [hf, hv]

theorem effect_set_flag {F : Type} (fl : FloatOps F) (f : Flag) (v : String) (s : Setting F)
    (h : effect fl f v = Effect.set s) : s.flag = f := by
  cases f <;> simp only [effect] at h <;>
    first
    | (simp only [Effect.set.injEq] at h; rw [← h]; rfl)
    | (split at h <;> first | (simp only [Effect.set.injEq] at h; rw [← h]; rfl) | simp at h)
    | simp at h

/-- The effect of a branch, read off the group: the usage exit is that of `-h`/`--help`, a
throw is the exception of the conversion, and an assignment means neither. -/
theorem effect_cases {F : Type} (fl : FloatOps F) (g : Group) (f : Flag)
    (hf : flag_of g.name = some f) :
    (effect fl f (g.value.getD "") = Effect.exit_help →
        g.is_help = true ∧ g.conversion_error fl = none)
    ∧ (∀ e, effect fl f (g.value.getD "") = Effect.fail e →
        g.is_help = false ∧ g.conversion_error fl = some e)
    ∧ (∀ s, effect fl f (g.value.getD "") = Effect.set s →
        g.is_help = false ∧ g.conversion_error fl = none) := by
  unfold Group.is_help Group.conversion_error
  rw [hf]
  cases f <;> simp only [effect] <;>
    first
    | (refine ⟨?_, ?_, ?_⟩ <;> intros <;> simp_all [thrown]; done)
    | (split <;> rename_i heq <;> refine ⟨?_, ?_, ?_⟩ <;> intros <;> simp_all [thrown])

theorem setting_apply_comm {F : Type} (s1 s2 : Setting F) (h : s1.flag ≠ s2.flag)
    (args : Args F) : s1.apply (s2.apply args) = s2.apply (s1.apply args) := by
  cases s1 <;> cases s2 <;> first | rfl | exact absurd rfl h

theorem complete_iff (g : Group) (h : g.complete = true) :
    ∃ f, flag_of g.name = some f ∧ f.takes_value = g.value.isSome := by
  unfold Group.complete at h
  split at h
  · rename_i f hf
    exact ⟨f, hf, by simpa using h⟩
  · simp at h

theorem tokens_of_append (xs ys : List Group) :
    tokens_of (xs ++ ys) = tokens_of xs ++ tokens_of ys := by
  induction xs with
  | nil => simp [tokens_of]
  | cons g xs ih => simp [tokens_of, ih]

theorem parse_loop_prefix {F : Type} (fl : FloatOps F) (prog : String)
    (P : ParseResult (Args F) → ParseResult (Args F) → Prop) (hrefl : ∀ r, P r r)
    (x y : List String)
    (hxy : ∀ args : Args F, P (parse_loop fl prog x args) (parse_loop fl prog y args))
    (pre : List Group) (hpre : ∀ g ∈ pre, g.complete = true) :
    ∀ args : Args F,
      P (parse_loop fl prog (tokens_of pre ++ x) args)
        (parse_loop fl prog (tokens_of pre ++ y) args) := by
  induction pre with
  | nil => intro args; simpa [tokens_of] using hxy args
  | cons g pre ih =>
    intro args
    obtain ⟨f, hf, hv⟩ := complete_iff g (hpre g (by simp))
    simp only [tokens_of, List.append_assoc]
    rw [parse_loop_group fl prog g f hf hv, parse_loop_group fl prog g f hf hv]
    cases effect fl f (g.value.getD "") with
    | exit_help => exact hrefl _
    | fail e => exact hrefl _
    | set s => exact ih (fun g1 hg1 => hpre g1 (by simp [hg1])) _

/-- Behind a group that ends the parse, the rest of the command line does not matter. -/
theorem parse_loop_ended {F : Type} (fl : FloatOps F) (prog : String) (x y : List String)
    (pre : List Group) (hpre : ∀ g ∈ pre, g.complete = true)
    (hend : ∃ g ∈ pre, g.ends_parse fl = true) :
    ∀ args : Args F,
      parse_loop fl prog (tokens_of pre ++ x) args
        = parse_loop fl prog (tokens_of pre ++ y) args := by
  induction pre with
  | nil => simp at hend
  | cons g pre ih =>
    intro args
    obtain ⟨f, hf, hv⟩ := complete_iff g (hpre g (by simp))
    simp only [tokens_of, List.append_assoc]
    rw [parse_loop_group fl prog g f hf hv, parse_loop_group fl prog g f hf hv]
    cases he : effect fl f (g.value.getD "") with
    | exit_help => rfl
    | fail e => rfl
    | set s =>
      have hg := (effect_cases fl g f hf).2.2 s he
      simp only [after_effect]
      apply ih (fun g1 hg1 => hpre g1 (by simp [hg1]))
      obtain ⟨g1, hg1, hends⟩ := hend
      simp only [List.mem_cons] at hg1
      rcases hg1 with hg1 | hg1
      · subst hg1
        simp [Group.ends_parse, hg.1, hg.2] at hends
      · exact ⟨g1, hg1, hends⟩

/-- Groups that do not end the parse only update the arguments. -/
theorem parse_loop_through {F : Type} (fl : FloatOps F) (prog : String)
    (pre : List Group) (hpre : ∀ g ∈ pre, g.complete = true)
    (hall : ∀ g ∈ pre, g.ends_parse fl = false) :
    ∀ args : Args F, ∃ args1 : Args F, ∀ x,
      parse_loop fl prog (tokens_of pre ++ x) args = parse_loop fl prog x args1 := by
  induction pre with
  | nil => intro args; exact ⟨args, fun x => by simp [tokens_of]⟩
  | cons g pre ih =>
    intro args
    obtain ⟨f, hf, hv⟩ := complete_iff g (hpre g (by simp))
    have hg := hall g (by simp)
    cases he : effect fl f (g.value.getD "") with
    | exit_help =>
      have := (effect_cases fl g f hf).1 he
      simp [Group.ends_parse, this.1] at hg
    | fail e =>
      have := (effect_cases fl g f hf).2.1 e he
      simp [Group.ends_parse, this.2] at hg
    | set s =>
      obtain ⟨args1, h1⟩ := ih (fun g1 hg1 => hpre g1 (by simp [hg1]))
        (fun g1 hg1 => hall g1 (by simp [hg1])) (s.apply args)
      refine ⟨args1, fun x => ?_⟩
      simp only [tokens_of, List.append_assoc]
      rw [parse_loop_group fl prog g f hf hv, he]
      simp only [after_effect]
      exact h1 x

theorem swap_two_groups {F : Type} (fl : FloatOps F) (prog : String) (g1 g2 : Group)
    (h1 : g1.complete = true) (h2 : g2.complete = true)
    (hdistinct : flag_of g1.name ≠ flag_of g2.name)
    (rest : List String) (args : Args F) :
    (¬ (g1.ends_parse fl = true ∧ g2.ends_parse fl = true) →
        parse_loop fl prog (g1.tokens ++ (g2.tokens ++ rest)) args
          = parse_loop fl prog (g2.tokens ++ (g1.tokens ++ rest)) args)
    ∧ (∀ e, g1.is_help = true → g2.conversion_error fl = some e →
        parse_loop fl prog (g1.tokens ++ (g2.tokens ++ rest)) args
          = .exit [.usage prog] EXIT_SUCCESS
        ∧ parse_loop fl prog (g2.tokens ++ (g1.tokens ++ rest)) args = .throw e)
    ∧ (∀ e, g1.conversion_error fl = some e → g2.is_help = true →
        parse_loop fl prog (g1.tokens ++ (g2.tokens ++ rest)) args = .throw e
        ∧ parse_loop fl prog (g2.tokens ++ (g1.tokens ++ rest)) args
          = .exit [.usage prog] EXIT_SUCCESS)
    ∧ (∀ e1 e2, g1.conversion_error fl = some e1 → g2.conversion_error fl = some e2 →
        parse_loop fl prog (g1.tokens ++ (g2.tokens ++ rest)) args = .throw e1
        ∧ parse_loop fl prog (g2.tokens ++ (g1.tokens ++ rest)) args = .throw e2) := by
  obtain ⟨f1, hf1, hv1⟩ := complete_iff g1 h1
  obtain ⟨f2, hf2, hv2⟩ := complete_iff g2 h2
  have hne : f1 ≠ f2 := by
    intro h
    apply hdistinct
    rw [hf1, hf2, h]
  have hboth : ¬ (g1.is_help = true ∧ g2.is_help = true) := by
    rintro ⟨k1, k2⟩
    apply hdistinct
    simp only [Group.is_help, decide_eq_true_eq] at k1 k2
    rw [k1, k2]
  have c1 := effect_cases fl g1 f1 hf1
  have c2 := effect_cases fl g2 f2 hf2
  rw [parse_loop_group fl prog g1 f1 hf1 hv1, parse_loop_group fl prog g2 f2 hf2 hv2]
  cases he1 : effect fl f1 (g1.value.getD "") with
  | exit_help =>
    have k1 := c1.1 he1
    cases he2 : effect fl f2 (g2.value.getD "") with
    | exit_help => exact absurd ⟨k1.1, (c2.1 he2).1⟩ hboth
    | fail e =>
      have k2 := c2.2.1 e he2
      simp [after_effect, Group.ends_parse, k1.1, k1.2, k2.1, k2.2]
    | set s =>
      have k2 := c2.2.2 s he2
      simp only [after_effect]
      rw [parse_loop_group fl prog g1 f1 hf1 hv1, he1]
      simp [after_effect, Group.ends_parse, k1.1, k1.2, k2.1, k2.2]
  | fail e =>
    have k1 := c1.2.1 e he1
    cases he2 : effect fl f2 (g2.value.getD "") with
    | exit_help =>
      have k2 := c2.1 he2
      simp [after_effect, Group.ends_parse, k1.1, k1.2, k2.1, k2.2]
    | fail e2 =>
      have k2 := c2.2.1 e2 he2
      simp [after_effect, Group.ends_parse, k1.1, k1.2, k2.1, k2.2]
    | set s =>
      have k2 := c2.2.2 s he2
      simp only [after_effect]
      rw [parse_loop_group fl prog g1 f1 hf1 hv1, he1]
      simp [after_effect, Group.ends_parse, k1.1, k1.2, k2.1, k2.2]
  | set s1 =>
    have k1 := c1.2.2 s1 he1
    simp only [after_effect]
    rw [parse_loop_group fl prog g2 f2 hf2 hv2]
    cases he2 : effect fl f2 (g2.value.getD "") with
    | exit_help =>
      have k2 := c2.1 he2
      simp [after_effect, Group.ends_parse, k1.1, k1.2, k2.1, k2.2]
    | fail e2 =>
      have k2 := c2.2.1 e2 he2
      simp [after_effect, Group.ends_parse, k1.1, k1.2, k2.1, k2.2]
    | set s2 =>
      have k2 := c2.2.2 s2 he2
      simp only [after_effect]
      rw [parse_loop_group fl prog g1 f1 hf1 hv1, he1]
      simp only [after_effect]
      have hs : s1.flag ≠ s2.flag := by
        rw [effect_set_flag fl f1 _ s1 he1, effect_set_flag fl f2 _ s2 he2]
        exact hne
      rw [setting_apply_comm s1 s2 hs]
      simp [Group.ends_parse, k1.1, k1.2, k2.1, k2.2]

/-- C6, as the code has it. In an argument list made of complete flag groups after the
program name, exchanging two adjacent groups whose flags are distinct leaves the outcome of
`parse_args` unchanged whenever an earlier group ends the parse (it is `-h`/`--help` or the
conversion of its value throws) or the two exchanged groups do not both end it. When no
earlier group ends the parse and both exchanged groups do, the one that comes first
decides: with `-h`/`--help` and a value whose conversion throws `e`, the order with the
help flag first exits with status 0 after the usage text and the other order throws `e`;
with two values whose conversions throw, each order throws the exception of its first
group. -/
theorem swap_adjacent_groups {F : Type} (fl : FloatOps F) (prog : String)
    (pre : List Group) (g1 g2 : Group) (post : List Group)
    (hcomplete : ∀ g ∈ pre ++ g1 :: g2 :: post, g.complete = true)
    (hdistinct : flag_of g1.name ≠ flag_of g2.name) :
    ((∃ g ∈ pre, g.ends_parse fl = true)
        ∨ ¬ (g1.ends_parse fl = true ∧ g2.ends_parse fl = true) →
      parse_args fl (prog :: tokens_of (pre ++ g1 :: g2 :: post))
        = parse_args fl (prog :: tokens_of (pre ++ g2 :: g1 :: post)))
    ∧ ((∀ g ∈ pre, g.ends_parse fl = false) →
      (∀ e, g1.is_help = true → g2.conversion_error fl = some e →
        parse_args fl (prog :: tokens_of (pre ++ g1 :: g2 :: post))
          = .exit [.usage prog] EXIT_SUCCESS
        ∧ parse_args fl (prog :: tokens_of (pre ++ g2 :: g1 :: post)) = .throw e)
      ∧ (∀ e, g1.conversion_error fl = some e → g2.is_help = true →
        parse_args fl (prog :: tokens_of (pre ++ g1 :: g2 :: post)) = .throw e
        ∧ parse_args fl (prog :: tokens_of (pre ++ g2 :: g1 :: post))
          = .exit [.usage prog] EXIT_SUCCESS)
      ∧ (∀ e1 e2, g1.conversion_error fl = some e1 → g2.conversion_error fl = some e2 →
        parse_args fl (prog :: tokens_of (pre ++ g1 :: g2 :: post)) = .throw e1
        ∧ parse_args fl (prog :: tokens_of (pre ++ g2 :: g1 :: post)) = .throw e2)) := by
  have hpre : ∀ g ∈ pre, g.complete = true := fun g hg => hcomplete g (by simp [hg])
  have hswap := swap_two_groups fl prog g1 g2 (hcomplete g1 (by simp)) (hcomplete g2 (by simp))
    hdistinct (tokens_of post)
  simp only [parse_args, tokens_of_append, tokens_of]
  constructor
  · rintro (hend | hnot)
    · exact parse_loop_ended fl prog _ _ pre hpre hend (Args.default fl)
    · exact parse_loop_prefix fl prog (fun r1 r2 => r1 = r2) (fun _ => rfl) _ _
        (fun args => (hswap args).1 hnot) pre hpre (Args.default fl)
  · intro hall
    obtain ⟨args1, h1⟩ := parse_loop_through fl prog pre hpre hall (Args.default fl)
    rw [h1, h1]
    exact (hswap args1).2

theorem swap_adjacent_groups_witness :
    (∀ g ∈ [({ name := "-v", value := none } : Group)]
        ++ { name := "-l", value := some "12" } :: { name := "-p", value := some "hey" } :: [],
      g.complete = true)
    ∧ parse_args milli ["main", "-v", "-l", "12", "-p", "hey"]
      = parse_args milli ["main", "-v", "-p", "hey", "-l", "12"] :=
  ⟨by decide,
   (swap_adjacent_groups milli "main" [{ name := "-v", value := none }]
      { name := "-l", value := some "12" } { name := "-p", value := some "hey" } []
      (by decide) (by decide)).1 (Or.inr (by decide))⟩

/-- C6 fails as stated: `-h` followed by `-l abc` exits with status 0 after the usage text,
`-l abc` followed by `-h` throws from `std::stoi`, and `main` then exits with
`EXIT_FAILURE`. -/
theorem swap_help_counterexample :
    parse_args milli ["main", "-h", "-l", "abc"] = .exit [.usage "main"] EXIT_SUCCESS
    ∧ parse_args milli ["main", "-l", "abc", "-h"] = .throw (.invalid_argument "stoi")
    ∧ (main echo_env ["main", "-h", "-l", "abc"]).ending = .exited 0
    ∧ (main echo_env ["main", "-l", "abc", "-h"]).ending = .exited 1 := by
  decide

/-! ## `parse_args`: the last occurrence of a flag -/

theorem groups_of_value (arg v : String) (rest : List String) (f : Flag)
    (hf : flag_of arg = some f) (hv : f.takes_value = true) :
    groups_of (arg :: v :: rest) = { name := arg, value := some v } :: groups_of rest := by
  simp [groups_of, hf, hv]

theorem groups_of_switch (arg : String) (rest : List String) (f : Flag)
    (hf : flag_of arg = some f) (hv : f.takes_value = false) :
    groups_of (arg :: rest) = { name := arg, value := none } :: groups_of rest := by
  cases rest with
  | nil => simp [groups_of]
  | cons v rest => simp [groups_of, hf, hv]

theorem last_occurrence_cons (g : Group) (gs : List Group) (f : Flag) :
    last_occurrence (g :: gs) f
      = (last_occurrence gs f).or (if flag_of g.name = some f then some g else none) := by
  unfold last_occurrence
  by_cases h : flag_of g.name = some f
  · simp only [h, decide_True, List.filter_cons_of_pos, if_true]
    rw [List.getLast?_cons]
    cases (List.filter (fun g => decide (flag_of g.name = some f)) gs).getLast? <;> simp
  · simp [h]

theorem fieldIs_cons {α : Type} (g : Group) (gs : List Group) (f : Flag)
    (conv : String → Except Exn α) (d1 d2 x : α)
    (hrest : FieldIs gs f conv d2 x)
    (hsame : flag_of g.name = some f → conv (g.value.getD "") = .ok d2)
    (hother : flag_of g.name ≠ some f → d2 = d1) :
    FieldIs (g :: gs) f conv d1 x := by
  unfold FieldIs at hrest ⊢
  rw [last_occurrence_cons]
  cases hl : last_occurrence gs f with
  | some g1 =>
    rw [hl] at hrest
    simpa using hrest
  | none =>
    rw [hl] at hrest
    simp only at hrest
    by_cases h : flag_of g.name = some f
    · simp only [h, if_true, Option.none_or]
      rw [hrest]
      exact hsame h
    · simp only [h, if_false, Option.none_or]
      rw [hrest]
      exact hother h

/-- A field of the result of the loop is given by the last occurrence of its flag, or is the
field of the initial value. -/
theorem parse_loop_field {F α : Type} (fl : FloatOps F) (prog : String) (f : Flag)
    (conv : String → Except Exn α) (proj : Args F → α)
    (hsame : ∀ v s (a0 : Args F), effect fl f v = .set s → conv v = .ok (proj (s.apply a0)))
    (hother : ∀ f1 v s (a0 : Args F), f1 ≠ f → effect fl f1 v = .set s →
      proj (s.apply a0) = proj a0)
    (n : Nat) :
    ∀ (toks : List String) (a0 a : Args F), toks.length ≤ n →
      parse_loop fl prog toks a0 = .ok a →
      FieldIs (groups_of toks) f conv (proj a0) (proj a) := by
  induction n with
  | zero =>
    intro toks a0 a hlen h
    have : toks = [] := List.length_eq_zero.mp (Nat.le_zero.mp hlen)
    subst this
    rw [parse_loop.eq_def] at h
    simp only [ParseResult.ok.injEq] at h
    simp [groups_of, FieldIs, last_occurrence, h]
  | succ n ih =>
    intro toks a0 a hlen h
    cases toks with
    | nil =>
      rw [parse_loop.eq_def] at h
      simp only [ParseResult.ok.injEq] at h
      simp [groups_of, FieldIs, last_occurrence, h]
    | cons arg rest =>
      rw [parse_loop_cons] at h
      cases hf : flag_of arg with
      | none => simp [hf] at h
      | some f1 =>
        simp only [hf] at h
        cases hv : f1.takes_value with
        | true =>
          simp only [hv, if_true] at h
          cases rest with
          | nil => simp at h
          | cons v rest1 =>
            simp only at h
            rw [groups_of_value arg v rest1 f1 hf hv]
            cases he : effect fl f1 v with
            | exit_help => simp [he, after_effect] at h
            | fail e => simp [he, after_effect] at h
            | set s =>
              simp only [he, after_effect] at h
              have hrec := ih rest1 (s.apply a0) a
                (by simp only [List.length_cons] at hlen; omega) h
              refine fieldIs_cons _ _ f conv (proj a0) (proj (s.apply a0)) (proj a) hrec ?_ ?_
              · intro hg
                simp only [hf, Option.some.injEq] at hg
                subst hg
                exact hsame v s a0 he
              · intro hg
                simp only [hf, ne_eq, Option.some.injEq] at hg
                exact hother f1 v s a0 hg he
        | false =>
          simp only [hv, Bool.false_eq_true, if_false] at h
          rw [groups_of_switch arg rest f1 hf hv]
          cases he : effect fl f1 "" with
          | exit_help => simp [he, after_effect] at h
          | fail e => simp [he, after_effect] at h
          | set s =>
            simp only [he, after_effect] at h
            have hrec := ih rest (s.apply a0) a
              (by simp only [List.length_cons] at hlen; omega) h
            refine fieldIs_cons _ _ f conv (proj a0) (proj (s.apply a0)) (proj a) hrec ?_ ?_
            · intro hg
              simp only [hf, Option.some.injEq] at hg
              subst hg
              exact hsame "" s a0 he
            · intro hg
              simp only [hf, ne_eq, Option.some.injEq] at hg
              exact hother f1 "" s a0 hg he

/-- A command line that parses is made of complete groups. -/
theorem parse_loop_complete {F : Type} (fl : FloatOps F) (prog : String) (n : Nat) :
    ∀ (toks : List String) (a0 a : Args F), toks.length ≤ n →
      parse_loop fl prog toks a0 = .ok a →
      tokens_of (groups_of toks) = toks ∧ ∀ g ∈ groups_of toks, g.complete = true := by
  induction n with
  | zero =>
    intro toks a0 a hlen h
    have : toks = [] := List.length_eq_zero.mp (Nat.le_zero.mp hlen)
    subst this
    simp [groups_of, tokens_of]
  | succ n ih =>
    intro toks a0 a hlen h
    cases toks with
    | nil => simp [groups_of, tokens_of]
    | cons arg rest =>
      rw [parse_loop_cons] at h
      cases hf : flag_of arg with
      | none => simp [hf] at h
      | some f1 =>
        simp only [hf] at h
        cases hv : f1.takes_value with
        | true =>
          simp only [hv, if_true] at h
          cases rest with
          | nil => simp at h
          | cons v rest1 =>
            simp only at h
            rw [groups_of_value arg v rest1 f1 hf hv]
            cases he : effect fl f1 v with
            | exit_help => simp [he, after_effect] at h
            | fail e => simp [he, after_effect] at h
            | set s =>
              simp only [he, after_effect] at h
              have hrec := ih rest1 (s.apply a0) a
                (by simp only [List.length_cons] at hlen; omega) h
              refine ⟨by simp [tokens_of, Group.tokens, hrec.1], ?_⟩
              intro g hg
              simp only [List.mem_cons] at hg
              rcases hg with hg | hg
              · subst hg
                simp [Group.complete, hf, hv]
              · exact hrec.2 g hg
        | false =>
          simp only [hv, Bool.false_eq_true, if_false] at h
          rw [groups_of_switch arg rest f1 hf hv]
          cases he : effect fl f1 "" with
          | exit_help => simp [he, after_effect] at h
          | fail e => simp [he, after_effect] at h
          | set s =>
            simp only [he, after_effect] at h
            have hrec := ih rest (s.apply a0) a
              (by simp only [List.length_cons] at hlen; omega) h
            refine ⟨by simp [tokens_of, Group.tokens, hrec.1], ?_⟩
            intro g hg
            simp only [List.mem_cons] at hg
            rcases hg with hg | hg
            · subst hg
              simp [Group.complete, hf, hv]
            · exact hrec.2 g hg

/-- C5. When `parse_args` returns `a`, the tokens after the program name are a sequence of
complete groups (a flag, with its value when it takes one), and every field of `a` is given
by the last group whose flag, under its short or long name, sets that field: the value of
that group for a text field, its conversion by `to_inference_mode`, `std::stoi` or
`std::stof` for the others, `true` for `-i` and `-v`; a field whose flag occurs in no group
has its default. Earlier groups of the same flag do not enter the result. -/
theorem parse_args_last_wins {F : Type} (fl : FloatOps F) (argv : List String) (a : Args F)
    (h : parse_args fl argv = .ok a) :
    tokens_of (groups_of argv.tail) = argv.tail
    ∧ (∀ g ∈ groups_of argv.tail, g.complete = true)
    ∧ FieldIs (groups_of argv.tail) .model (fun v => .ok v)
        (Args.default fl).model_path a.model_path
    ∧ FieldIs (groups_of argv.tail) .mode (to_inference_mode)
        (Args.default fl).mode a.mode
    ∧ FieldIs (groups_of argv.tail) .prompt (fun v => .ok v)
        (Args.default fl).prompt a.prompt
    ∧ FieldIs (groups_of argv.tail) .file (fun v => .ok v)
        (Args.default fl).file a.file
    ∧ FieldIs (groups_of argv.tail) .interactive (fun _ => .ok true)
        (Args.default fl).interactive a.interactive
    ∧ FieldIs (groups_of argv.tail) .max_length (stoi)
        (Args.default fl).max_length a.max_length
    ∧ FieldIs (groups_of argv.tail) .max_context_length (stoi)
        (Args.default fl).max_context_length a.max_context_length
    ∧ FieldIs (groups_of argv.tail) .top_k (stoi)
        (Args.default fl).top_k a.top_k
    ∧ FieldIs (groups_of argv.tail) .top_p (fl.stof)
        (Args.default fl).top_p a.top_p
    ∧ FieldIs (groups_of argv.tail) .temp (fl.stof)
        (Args.default fl).temp a.temp
    ∧ FieldIs (groups_of argv.tail) .repeat_penalty (fl.stof)
        (Args.default fl).repeat_penalty a.repeat_penalty
    ∧ FieldIs (groups_of argv.tail) .threads (stoi)
        (Args.default fl).num_threads a.num_threads
    ∧ FieldIs (groups_of argv.tail) .verbose (fun _ => .ok true)
        (Args.default fl).verbose a.verbose := by
  cases argv with
  | nil =>
    simp only [parse_args, ParseResult.ok.injEq] at h
    subst h
    simp [groups_of, tokens_of, FieldIs, last_occurrence]
  | cons prog rest =>
    simp only [parse_args] at h
    simp only [List.tail_cons]
    have hc := parse_loop_complete fl prog rest.length rest (Args.default fl) a (Nat.le_refl _) h
    refine ⟨hc.1, hc.2, ?_, ?_, ?_, ?_, ?_, ?_, ?_, ?_, ?_, ?_, ?_, ?_, ?_⟩
    · exact parse_loop_field fl prog .model (fun v => .ok v) (fun x => x.model_path)
          (by
            intro v s a0 he
            simp only [effect] at he
            cases he
            rfl)
          (by
            intro f1 v s a0 hne he
            have hs := effect_set_flag fl f1 v s he
            cases s <;> first | rfl | exact absurd hs.symm hne)
          rest.length rest (Args.default fl) a (Nat.le_refl _) h
    · exact parse_loop_field fl prog .mode (to_inference_mode) (fun x => x.mode)
          (by
            intro v s a0 he
            simp only [effect] at he
            split at he
            · cases he
            · rename_i heq
              cases he
              rw [heq]
              rfl)
          (by
            intro f1 v s a0 hne he
            have hs := effect_set_flag fl f1 v s he
            cases s <;> first | rfl | exact absurd hs.symm hne)
          rest.length rest (Args.default fl) a (Nat.le_refl _) h
    · exact parse_loop_field fl prog .prompt (fun v => .ok v) (fun x => x.prompt)
          (by
            intro v s a0 he
            simp only [effect] at he
            cases he
            rfl)
          (by
            intro f1 v s a0 hne he
            have hs := effect_set_flag fl f1 v s he
            cases s <;> first | rfl | exact absurd hs.symm hne)
          rest.length rest (Args.default fl) a (Nat.le_refl _) h
    · exact parse_loop_field fl prog .file (fun v => .ok v) (fun x => x.file)
          (by
            intro v s a0 he
            simp only [effect] at he
            cases he
            rfl)
          (by
            intro f1 v s a0 hne he
            have hs := effect_set_flag fl f1 v s he
            cases s <;> first | rfl | exact absurd hs.symm hne)
          rest.length rest (Args.default fl) a (Nat.le_refl _) h
    · exact parse_loop_field fl prog .interactive (fun _ => .ok true) (fun x => x.interactive)
          (by
            intro v s a0 he
            simp only [effect] at he
            cases he
            rfl)
          (by
            intro f1 v s a0 hne he
            have hs := effect_set_flag fl f1 v s he
            cases s <;> first | rfl | exact absurd hs.symm hne)
          rest.length rest (Args.default fl) a (Nat.le_refl _) h
    · exact parse_loop_field fl prog .max_length (stoi) (fun x => x.max_length)
          (by
            intro v s a0 he
            simp only [effect] at he
            split at he
            · cases he
            · rename_i heq
              cases he
              rw [heq]
              rfl)
          (by
            intro f1 v s a0 hne he
            have hs := effect_set_flag fl f1 v s he
            cases s <;> first | rfl | exact absurd hs.symm hne)
          rest.length rest (Args.default fl) a (Nat.le_refl _) h
    · exact parse_loop_field fl prog .max_context_length (stoi) (fun x => x.max_context_length)
          (by
            intro v s a0 he
            simp only [effect] at he
            split at he
            · cases he
            · rename_i heq
              cases he
              rw [heq]
              rfl)
          (by
            intro f1 v s a0 hne he
            have hs := effect_set_flag fl f1 v s he
            cases s <;> first | rfl | exact absurd hs.symm hne)
          rest.length rest (Args.default fl) a (Nat.le_refl _) h
    · exact parse_loop_field fl prog .top_k (stoi) (fun x => x.top_k)
          (by
            intro v s a0 he
            simp only [effect] at he
            split at he
            · cases he
            · rename_i heq
              cases he
              rw [heq]
              rfl)
          (by
            intro f1 v s a0 hne he
            have hs := effect_set_flag fl f1 v s he
            cases s <;> first | rfl | exact absurd hs.symm hne)
          rest.length rest (Args.default fl) a (Nat.le_refl _) h
    · exact parse_loop_field fl prog .top_p (fl.stof) (fun x => x.top_p)
          (by
            intro v s a0 he
            simp only [effect] at he
            split at he
            · cases he
            · rename_i heq
              cases he
              rw [heq]
              rfl)
          (by
            intro f1 v s a0 hne he
            have hs := effect_set_flag fl f1 v s he
            cases s <;> first | rfl | exact absurd hs.symm hne)
          rest.length rest (Args.default fl) a (Nat.le_refl _) h
    · exact parse_loop_field fl prog .temp (fl.stof) (fun x => x.temp)
          (by
            intro v s a0 he
            simp only [effect] at he
            split at he
            · cases he
            · rename_i heq
              cases he
              rw [heq]
              rfl)
          (by
            intro f1 v s a0 hne he
            have hs := effect_set_flag fl f1 v s he
            cases s <;> first | rfl | exact absurd hs.symm hne)
          rest.length rest (Args.default fl) a (Nat.le_refl _) h
    · exact parse_loop_field fl prog .repeat_penalty (fl.stof) (fun x => x.repeat_penalty)
          (by
            intro v s a0 he
            simp only [effect] at he
            split at he
            · cases he
            · rename_i heq
              cases he
              rw [heq]
              rfl)
          (by
            intro f1 v s a0 hne he
            have hs := effect_set_flag fl f1 v s he
            cases s <;> first | rfl | exact absurd hs.symm hne)
          rest.length rest (Args.default fl) a (Nat.le_refl _) h
    · exact parse_loop_field fl prog .threads (stoi) (fun x => x.num_threads)
          (by
            intro v s a0 he
            simp only [effect] at he
            split at he
            · cases he
            · rename_i heq
              cases he
              rw [heq]
              rfl)
          (by
            intro f1 v s a0 hne he
            have hs := effect_set_flag fl f1 v s he
            cases s <;> first | rfl | exact absurd hs.symm hne)
          rest.length rest (Args.default fl) a (Nat.le_refl _) h
    · exact parse_loop_field fl prog .verbose (fun _ => .ok true) (fun x => x.verbose)
          (by
            intro v s a0 he
            simp only [effect] at he
            cases he
            rfl)
          (by
            intro f1 v s a0 hne he
            have hs := effect_set_flag fl f1 v s he
            cases s <;> first | rfl | exact absurd hs.symm hne)
          rest.length rest (Args.default fl) a (Nat.le_refl _) h

theorem parse_args_last_wins_witness :
    parse_args milli ["main", "-l", "1", "-v", "--max_length", "2"]
      = .ok { Args.default milli with max_length := 2, verbose := true }
    ∧ FieldIs (groups_of ["-l", "1", "-v", "--max_length", "2"]) .max_length stoi 2048 2 :=
  ⟨by decide,
   (parse_args_last_wins milli ["main", "-l", "1", "-v", "--max_length", "2"]
      { Args.default milli with max_length := 2, verbose := true } (by decide)).2.2.2.2.2.2.2.1⟩

end ChatGLM
